import Mathlib

/-!
Shallow embedding of the computational core of the transport-network
resilience analyzer (`src/utils/graphAlgorithms.js`): graph construction
with objective-dependent edge weighting, shortest-path search under three
objectives, failure application, OD-pair metric aggregation, candidate
generation and the greedy link recommender.

Modelling conventions:
* JS numbers are modelled as `ℚ` (the arithmetic performed by the claims'
  inputs is exact); `Infinity` sentinels are modelled as `none` of an
  `Option` type.
* graphology's simple undirected graph is modelled as an explicit node
  list and edge list in insertion order; `hasEdge`/`getEdgeAttributes`
  match either orientation of the unordered pair, as graphology does.
* `Array.prototype.sort` (stable per ECMA-262) is modelled by a stable
  insertion sort `jsSortWith`; for an inconsistent comparator the result
  of the JS sort is implementation-defined, and the model keeps an
  element before another whenever the comparator call returns ≤ 0.
* The `while` loops of the two path searches are modelled with an
  explicit fuel argument bounding the number of iterations.
* Debug `console.log` / `window.*` instrumentation is side-effect-free
  and omitted.
-/

namespace TransportNet

/-- Path-search objective; the source passes the strings
`'time' | 'cost' | 'transfers'`. -/
inductive Objective
  | time
  | cost
  | transfers
deriving DecidableEq, Repr

/-- JS `a || b` on an optional string: falls through to `b` when the field
is `undefined` or the empty string (both falsy). -/
def strOr (a : Option String) (b : String) : String :=
  match a with
  | none => b
  | some s => if s = "" then b else s

/-- Raw node record of the input dataset (one `nodes.csv` row). The source
field `type` is called `ntype` here (`type` reads badly in Lean). -/
structure NodeRec where
  node_id : String
  name : Option String
  lat : ℚ
  lon : ℚ
  layer : Option String
  region : Option String
  ntype : Option String
deriving DecidableEq, Repr

/-- Raw edge record of the input dataset (one `edges.csv` row). -/
structure EdgeRec where
  from_id : String
  to_id : String
  mode : Option String
  edge_type : Option String
  intra_or_inter : Option String
  distance_km : ℚ
  time_min : ℚ
  cost_rs : Option ℚ
deriving DecidableEq, Repr

/-- Edge attributes stored in the graph. `buildGraph` (lines 307-321)
sets every field; edges inserted by the greedy recommender leave
`baseTime`/`baseCost`/`originalCost`/`capacityFactor` undefined (`none`).
Raw-record spread fields that no later computation reads are omitted. -/
structure EdgeAttrs where
  weight : ℚ
  transportMode : String
  mode : String
  distance : ℚ
  time : ℚ
  cost : ℚ
  baseTime : Option ℚ
  baseCost : Option ℚ
  originalCost : Option ℚ
  capacityFactor : Option ℚ
  intra_or_inter : Option String
  isInterModal : Option Bool
deriving DecidableEq, Repr

/-- A graphology simple undirected graph: nodes and edges in insertion
order, node attributes being the spread node record (the `label` alias of
`name` added at line 170 is never read back and is not duplicated). -/
structure Graph where
  nodes : List (String × NodeRec)
  edges : List (String × String × EdgeAttrs)
deriving DecidableEq, Repr

def emptyGraph : Graph := ⟨[], []⟩

def Graph.hasNode (g : Graph) (x : String) : Bool :=
  g.nodes.any (fun p => p.1 == x)

/-- Undirected edge membership: either orientation matches. -/
def Graph.hasEdge (g : Graph) (u v : String) : Bool :=
  g.edges.any (fun e => (e.1 == u && e.2.1 == v) || (e.1 == v && e.2.1 == u))

def Graph.getEdgeAttributes (g : Graph) (u v : String) : Option EdgeAttrs :=
  (g.edges.find? (fun e => (e.1 == u && e.2.1 == v) || (e.1 == v && e.2.1 == u))).map
    (fun e => e.2.2)

def Graph.getNodeAttributes (g : Graph) (x : String) : Option NodeRec :=
  (g.nodes.find? (fun p => p.1 == x)).map (fun p => p.2)

/-- Neighbors of `u` in adjacency (edge-insertion) order, as
`forEachNeighbor` iterates them. -/
def Graph.neighborsOf (g : Graph) (u : String) : List String :=
  g.edges.filterMap (fun e =>
    if e.1 == u then some e.2.1 else if e.2.1 == u then some e.1 else none)

/-- graphology `dropNode`: removes the node and all incident edges. -/
def Graph.dropNode (g : Graph) (x : String) : Graph :=
  ⟨g.nodes.filter (fun p => !(p.1 == x)),
   g.edges.filter (fun e => !(e.1 == x) && !(e.2.1 == x))⟩

/-- graphology `dropEdge` on an unordered pair. -/
def Graph.dropEdge (g : Graph) (u v : String) : Graph :=
  ⟨g.nodes,
   g.edges.filter (fun e => !((e.1 == u && e.2.1 == v) || (e.1 == v && e.2.1 == u)))⟩

/-- graphology `addEdge` on a simple graph: throws (modelled as `none`)
when an endpoint is missing or the unordered pair is already connected. -/
def Graph.addEdge? (g : Graph) (u v : String) (a : EdgeAttrs) : Option Graph :=
  if !(g.hasNode u) || !(g.hasNode v) || g.hasEdge u v then none
  else some ⟨g.nodes, g.edges ++ [(u, v, a)]⟩

/-- Stable insertion of `x` into `l`: `x` goes after every element `y`
for which the JS comparator `cmp y x` returned ≤ 0. -/
def jsInsert (cmp : α → α → ℚ) (x : α) : List α → List α
  | [] => [x]
  | y :: ys => if cmp y x ≤ 0 then y :: jsInsert cmp x ys else x :: y :: ys

def jsSortAux (cmp : α → α → ℚ) : List α → List α → List α
  | acc, [] => acc
  | acc, x :: xs => jsSortAux cmp (jsInsert cmp x acc) xs

/-- Model of `Array.prototype.sort(cmp)`: a stable comparison sort. For a
consistent comparator this is exactly the ECMA-262 contract; for an
inconsistent comparator the JS result is implementation-defined and this
model keeps earlier elements first whenever `cmp` answers ≤ 0. -/
def jsSortWith (cmp : α → α → ℚ) (l : List α) : List α :=
  jsSortAux cmp [] l

/-- Hyderabad Metro fare table keyed by distance bands
(`calculateMetroFare`, lines 21-33). -/
def calculateMetroFare (distanceKm : ℚ) : ℚ :=
  if distanceKm ≤ 2 then 10
  else if distanceKm ≤ 4 then 20
  else if distanceKm ≤ 6 then 30
  else if distanceKm ≤ 9 then 40
  else if distanceKm ≤ 12 then 50
  else if distanceKm ≤ 15 then 60
  else if distanceKm ≤ 18 then 70
  else if distanceKm ≤ 21 then 80
  else if distanceKm ≤ 24 then 90
  else 100

/-- Penalty added to inter-modal edge weights under the `transfers`
objective (line 10). -/
def TRANSFER_PENALTY : ℚ := 10000

structure Coefficients where
  timeMultiplier : ℚ
  costMultiplier : ℚ
  capacityFactor : ℚ
  label : String
deriving DecidableEq, Repr

/-- Default coefficients used when none are supplied (lines 134-139). -/
def defaultCoefficients : Coefficients :=
  { timeMultiplier := 1, costMultiplier := 1, capacityFactor := 1, label := "Standard" }

structure RouteContext where
  source : Option String
  target : Option String
deriving DecidableEq, Repr

/-- JS `s.endsWith(post)`. -/
def jsEndsWith (s post : String) : Bool :=
  List.isSuffixOf post.toList s.toList

/-- `routeContext?.source?.endsWith('_Metro') || false` (lines 142-143). -/
def optEndsWithMetro : Option String → Bool
  | none => false
  | some s => jsEndsWith s "_Metro"

/-- `preferMetro` flag of `buildGraph` (line 144). -/
def preferMetroOf (routeContext : Option RouteContext) : Bool :=
  match routeContext with
  | none => false
  | some c => optEndsWithMetro c.source && optEndsWithMetro c.target

/-- `edge.mode || edge.edge_type || 'unknown'` (line 186). -/
def transportModeOf (edge : EdgeRec) : String :=
  strOr edge.mode (strOr edge.edge_type "unknown")

/-- Base cost of an edge (lines 188-207): metro edges use the fare table,
all other modes use the supplied cost (`edge.cost_rs || 0`). -/
def buildGraphBaseCost (edge : EdgeRec) : ℚ :=
  if transportModeOf edge = "metro" then calculateMetroFare edge.distance_km
  else (edge.cost_rs).getD 0

/-- The dedicated-track modes exempt from time-of-day multipliers
(lines 212, 247). -/
def isRailMode (tm : String) : Bool := tm == "metro" || tm == "mmts"

/-- Adjusted time (lines 211-242): rail modes keep the base time, road
modes are multiplied by the traffic multiplier. -/
def buildGraphAdjustedTime (coefficients : Coefficients) (edge : EdgeRec) : ℚ :=
  if isRailMode (transportModeOf edge) then edge.time_min
  else edge.time_min * coefficients.timeMultiplier

/-- Adjusted cost (lines 246-272): rail modes keep the base cost, road
modes get the surge multiplier; under a Metro-to-Metro route context
every non-metro, non-`'inter'` edge is made 40% more expensive. -/
def buildGraphUnpenalizedCost (coefficients : Coefficients) (edge : EdgeRec) : ℚ :=
  if isRailMode (transportModeOf edge) then buildGraphBaseCost edge
  else buildGraphBaseCost edge * coefficients.costMultiplier

def buildGraphAdjustedCost (coefficients : Coefficients) (preferMetro : Bool)
    (edge : EdgeRec) : ℚ :=
  if preferMetro && !(transportModeOf edge == "metro") &&
      !(edge.intra_or_inter == some "inter") then
    buildGraphUnpenalizedCost coefficients edge * 1.4
  else buildGraphUnpenalizedCost coefficients edge

/-- Edge weight by objective (lines 274-287). -/
def buildGraphWeight (objective : Objective) (coefficients : Coefficients)
    (preferMetro : Bool) (edge : EdgeRec) : ℚ :=
  match objective with
  | .time => buildGraphAdjustedTime coefficients edge
  | .cost => buildGraphAdjustedCost coefficients preferMetro edge
  | .transfers =>
      edge.time_min * 0.01 +
        (if edge.intra_or_inter == some "inter" then TRANSFER_PENALTY else 0)

/-- The attribute record stored for one edge (lines 308-321). -/
def buildGraphEdgeAttrs (objective : Objective) (coefficients : Coefficients)
    (preferMetro : Bool) (edge : EdgeRec) : EdgeAttrs :=
  { weight := buildGraphWeight objective coefficients preferMetro edge
    transportMode := transportModeOf edge
    mode := transportModeOf edge
    distance := edge.distance_km
    time := buildGraphAdjustedTime coefficients edge
    cost := buildGraphAdjustedCost coefficients preferMetro edge
    baseTime := some edge.time_min
    baseCost := some (buildGraphBaseCost edge)
    originalCost := edge.cost_rs
    capacityFactor := some coefficients.capacityFactor
    intra_or_inter := edge.intra_or_inter
    isInterModal := some (edge.intra_or_inter == some "inter") }

/-- Processing of one edge record (lines 178-326): skipped when an
endpoint is missing (line 181) or the pair is already connected
(line 307), otherwise appended with its computed attributes. -/
def buildGraphStep (objective : Objective) (coefficients : Coefficients)
    (preferMetro : Bool) (g : Graph) (edge : EdgeRec) : Graph :=
  if !(g.hasNode edge.from_id) || !(g.hasNode edge.to_id) then g
  else if g.hasEdge edge.from_id edge.to_id then g
  else
    { g with edges := g.edges ++ [(edge.from_id, edge.to_id,
        buildGraphEdgeAttrs objective coefficients preferMetro edge)] }

/-- `buildGraph` (lines 130-329). Adds every node, then every edge whose
endpoints both exist and whose unordered pair is not yet connected, with
the computed weight/time/cost attributes. The dataset contract guarantees
unique node ids (a duplicate id would make graphology `addNode` throw). -/
def buildGraph (nodes : List NodeRec) (edges : List EdgeRec) (objective : Objective)
    (timeOfDayCoefficients : Option Coefficients)
    (routeContext : Option RouteContext) : Graph :=
  let coefficients := timeOfDayCoefficients.getD defaultCoefficients
  let preferMetro := preferMetroOf routeContext
  let g0 : Graph := ⟨nodes.map (fun n => (n.node_id, n)), []⟩
  edges.foldl (buildGraphStep objective coefficients preferMetro) g0

/-- JS `a || b` on two strings (both present): falls through on `""`. -/
def strOrS (a b : String) : String := if a = "" then b else a

/-- JS `Map.set`: replace the binding if the key exists, else append. -/
def assocSet (m : List (String × β)) (k : String) (v : β) : List (String × β) :=
  if m.any (fun p => p.1 == k) then
    m.map (fun p => if p.1 == k then (k, v) else p)
  else m ++ [(k, v)]

/-- JS `Map.get`. -/
def assocGet (m : List (String × β)) (k : String) : Option β :=
  (m.find? (fun p => p.1 == k)).map (fun p => p.2)

/-- Priority-queue entry of `dijkstraMinTransfers` (line 53). -/
structure TQEntry where
  node : String
  transfers : ℕ
  time : ℚ
  prevMode : Option String
  path : List String
deriving DecidableEq, Repr

/-- The comparator at lines 62-65: transfers first, then time. -/
def minTransfersCmp (a b : TQEntry) : ℚ :=
  if a.transfers ≠ b.transfers then (a.transfers : ℚ) - (b.transfers : ℚ)
  else a.time - b.time

/-- Neighbor relaxation of `dijkstraMinTransfers` (lines 78-115): state is
the `best` map (keyed by node only, exactly as in the source) and the
queue tail; improving entries are appended. -/
def minTransfersRelax (g : Graph) (current : TQEntry)
    (st : List (String × ℕ × ℚ) × List TQEntry) (neighbor : String) :
    List (String × ℕ × ℚ) × List TQEntry :=
  match g.getEdgeAttributes current.node neighbor with
  | none => st
  | some edge =>
    let edgeMode := strOrS edge.transportMode edge.mode
    let edgeTime := edge.time
    let newTransfers := current.transfers +
      (match current.prevMode with
       | some m => if m ≠ edgeMode then 1 else 0
       | none => 0)
    let newTime := current.time + edgeTime
    let isBetter : Bool :=
      match assocGet st.1 neighbor with
      | none => true
      | some bestSoFar =>
          if newTransfers < bestSoFar.1 then true
          else if newTransfers = bestSoFar.1 ∧ newTime < bestSoFar.2 then true
          else false
    if isBetter then
      (assocSet st.1 neighbor (newTransfers, newTime),
       st.2 ++ [{ node := neighbor, transfers := newTransfers, time := newTime,
                  prevMode := some edgeMode, path := current.path ++ [neighbor] }])
    else st

/-- The `${node}_${prevMode}` visited key of line 73 (`null` prints as
the string `"null"` in a JS template literal). -/
def stateKeyOf (node : String) (prevMode : Option String) : String :=
  node ++ "_" ++ (match prevMode with | none => "null" | some m => m)

/-- The `while` loop of `dijkstraMinTransfers` (lines 60-116), fuelled. -/
def minTransfersLoop (g : Graph) (target : String) :
    ℕ → List TQEntry → List String → List (String × ℕ × ℚ) → Option (List String)
  | 0, _, _, _ => none
  | fuel + 1, queue, visited, best =>
    match jsSortWith minTransfersCmp queue with
    | [] => none
    | current :: rest =>
      if current.node = target then some current.path
      else
        if visited.contains (stateKeyOf current.node current.prevMode) then
          minTransfersLoop g target fuel rest visited best
        else
          minTransfersLoop g target fuel
            ((g.neighborsOf current.node).foldl (minTransfersRelax g current)
              (best, rest)).2
            (visited ++ [stateKeyOf current.node current.prevMode])
            ((g.neighborsOf current.node).foldl (minTransfersRelax g current)
              (best, rest)).1

/-- Fuel bound for the search loops; ample for every loop actually
executed in this file (each search terminates long before the bound). -/
def searchFuel (g : Graph) : ℕ :=
  (g.nodes.length + 1) * (g.edges.length + 2) * (g.edges.length + 2)

/-- `dijkstraMinTransfers` (lines 43-119). -/
def dijkstraMinTransfers (g : Graph) (source target : String) : Option (List String) :=
  if !(g.hasNode source) || !(g.hasNode target) then none
  else if source = target then some [source]
  else
    minTransfersLoop g target (searchFuel g)
      [{ node := source, transfers := 0, time := 0, prevMode := none, path := [source] }]
      [] (assocSet [] source (0, 0))

/-- Priority-queue entry of the weighted search. -/
structure WQEntry where
  node : String
  dist : ℚ
  path : List String
deriving DecidableEq, Repr

/-- Relaxation step of the weighted search over the `weight` attribute. -/
def weightRelax (g : Graph) (current : WQEntry)
    (st : List (String × ℚ) × List WQEntry) (neighbor : String) :
    List (String × ℚ) × List WQEntry :=
  match g.getEdgeAttributes current.node neighbor with
  | none => st
  | some edge =>
    let nd := current.dist + edge.weight
    let isBetter : Bool :=
      match assocGet st.1 neighbor with
      | none => true
      | some d => if nd < d then true else false
    if isBetter then
      (assocSet st.1 neighbor nd,
       st.2 ++ [{ node := neighbor, dist := nd, path := current.path ++ [neighbor] }])
    else st

def weightLoop (g : Graph) (target : String) :
    ℕ → List WQEntry → List String → List (String × ℚ) → Option (List String)
  | 0, _, _, _ => none
  | fuel + 1, queue, visited, best =>
    match jsSortWith (fun a b => a.dist - b.dist) queue with
    | [] => none
    | current :: rest =>
      if current.node = target then some current.path
      else if visited.contains current.node then
        weightLoop g target fuel rest visited best
      else
        weightLoop g target fuel
          ((g.neighborsOf current.node).foldl (weightRelax g current) (best, rest)).2
          (visited ++ [current.node])
          ((g.neighborsOf current.node).foldl (weightRelax g current) (best, rest)).1

/-- Model of the external `graphology-shortest-path` `bidirectional`
call (line 356): a weighted Dijkstra over the `weight` attribute that
returns a minimum-weight path, or `none` when the target is unreachable
(the library returns `null` then). -/
def bidirectionalDijkstra (g : Graph) (source target : String) : Option (List String) :=
  if !(g.hasNode source) || !(g.hasNode target) then none
  else if source = target then some [source]
  else
    weightLoop g target (searchFuel g) [{ node := source, dist := 0, path := [source] }]
      [] (assocSet [] source 0)

/-- One per-edge row of the `pathSegments` breakdown (lines 398-407);
the source fields `from`/`to` (display names) are `fromName`/`toName`. -/
structure PathSegment where
  fromName : String
  toName : String
  fromId : String
  toId : String
  mode : String
  time : ℚ
  cost : ℚ
  distance : ℚ
deriving DecidableEq, Repr

/-- Path Result (§3 of the spec); `none` models the `Infinity` / `null`
sentinels of the source. -/
structure PathResult where
  path : Option (List String)
  pathSegments : List PathSegment
  distance : Option ℚ
  transfers : Option ℕ
  time : Option ℚ
  cost : Option ℚ
deriving DecidableEq, Repr

/-- The unreachable sentinel (lines 341, 362, 452). -/
def unreachableResult : PathResult :=
  { path := none, pathSegments := [], distance := none, transfers := none,
    time := none, cost := none }

/-- The `source == target` trivial result (line 345). -/
def trivialResult (s : String) : PathResult :=
  { path := some [s], pathSegments := [], distance := some 0, transfers := some 0,
    time := some 0, cost := some 0 }

/-- `edge.transportMode || edge.mode || 'unknown'` (line 384). -/
def segmentModeOf (edge : EdgeAttrs) : String :=
  strOrS (strOrS edge.transportMode edge.mode) "unknown"

/-- `edge.transportMode || edge.mode` (line 422), used for the transfer
count; both attributes are set on every edge this code builds. -/
def transferModeOf (edge : EdgeAttrs) : String :=
  strOrS edge.transportMode edge.mode

/-- Accumulator of the metric walk over a returned path (lines 366-372). -/
structure WalkAcc where
  totalTime : ℚ
  totalCost : ℚ
  totalDistance : ℚ
  transfers : ℕ
  prevMode : Option String
  segs : List PathSegment
deriving DecidableEq, Repr

/-- The zeroed accumulator the metric walk starts from (lines 366-372). -/
def initialWalkAcc : WalkAcc :=
  { totalTime := 0, totalCost := 0, totalDistance := 0, transfers := 0,
    prevMode := none, segs := [] }

/-- The metric walk over consecutive path edges (lines 378-429). A failed
edge or node attribute lookup corresponds to a thrown graphology error,
caught at line 450: modelled as `none`. -/
def walkPath (g : Graph) : List String → WalkAcc → Option WalkAcc
  | [], acc => some acc
  | [_], acc => some acc
  | x :: y :: rest, acc =>
    match g.getEdgeAttributes x y, g.getNodeAttributes x, g.getNodeAttributes y with
    | some edge, some fromNode, some toNode =>
      let segmentMode := segmentModeOf edge
      let currentMode := transferModeOf edge
      let acc' : WalkAcc :=
        { totalTime := acc.totalTime + edge.time
          totalCost := acc.totalCost + edge.cost
          totalDistance := acc.totalDistance + edge.distance
          transfers := acc.transfers +
            (match acc.prevMode with
             | some m => if m ≠ currentMode then 1 else 0
             | none => 0)
          prevMode := some currentMode
          segs := acc.segs ++ [{ fromName := strOr fromNode.name x
                                 toName := strOr toNode.name y
                                 fromId := x, toId := y, mode := segmentMode
                                 time := edge.time, cost := edge.cost
                                 distance := edge.distance }] }
      walkPath g (y :: rest) acc'
    | _, _, _ => none

/-- `computeShortestPath` (lines 339-454). -/
def computeShortestPath (g : Graph) (source target : String)
    (objective : Objective) : PathResult :=
  if !(g.hasNode source) || !(g.hasNode target) then unreachableResult
  else if source = target then trivialResult source
  else
    let pathFound :=
      match objective with
      | .transfers => dijkstraMinTransfers g source target
      | _ => bidirectionalDijkstra g source target
    match pathFound with
    | none => unreachableResult
    | some path =>
      match walkPath g path initialWalkAcc with
      | none => unreachableResult
      | some acc =>
        { path := some path, pathSegments := acc.segs,
          distance := some acc.totalDistance, transfers := some acc.transfers,
          time := some acc.totalTime, cost := some acc.totalCost }

/-- One `'node'` failure target (lines 471-475). -/
def nodeFailStep (g : Graph) (nodeId : String) : Graph :=
  if g.hasNode nodeId then g.dropNode nodeId else g

/-- `edgeSpec.split('_')` of line 478: the string is cut at every
underscore; JS `"".split('_')` is `[""]` and a trailing separator yields
a trailing empty token, reproduced here. -/
def splitUnderscoreAux : List Char → List Char → List String
  | [], acc => [String.mk acc.reverse]
  | c :: cs, acc =>
    if c = '_' then String.mk acc.reverse :: splitUnderscoreAux cs []
    else splitUnderscoreAux cs (c :: acc)

def splitUnderscore (s : String) : List String :=
  splitUnderscoreAux s.toList []

/-- One `'edge'` failure target (lines 477-482): the key is split at
every underscore and only the first two tokens name the endpoints. With
fewer than two tokens the destructured `to` is `undefined` and
`hasEdge(from, undefined)` is false, so nothing is dropped. -/
def edgeFailStep (g : Graph) (edgeSpec : String) : Graph :=
  match splitUnderscore edgeSpec with
  | f :: t :: _ => if g.hasEdge f t then g.dropEdge f t else g
  | _ => g

/-- The `'layer'` branch (lines 483-491). -/
def layerFail (g : Graph) (failureTargets : List String) : Graph :=
  let nodesToRemove := (g.nodes.filter (fun p =>
    match p.2.layer with
    | some l => failureTargets.contains l
    | none => false)).map (fun p => p.1)
  nodesToRemove.foldl (fun fg n => fg.dropNode n) g

/-- `applyFailure` (lines 463-494), value level: the result it computes.
The aliasing discipline (`graph.copy()` before any mutation) is modelled
separately by `applyFailureStore`. -/
def applyFailure (graph : Graph) (failureType : String)
    (failureTargets : List String) : Graph :=
  if failureTargets.length = 0 then graph
  else if failureType = "node" then failureTargets.foldl nodeFailStep graph
  else if failureType = "edge" then failureTargets.foldl edgeFailStep graph
  else if failureType = "layer" then layerFail graph failureTargets
  else graph

/-- A heap of graph values; a graph reference is an index into it. -/
abbrev GraphStore := List Graph

def storeGet (s : GraphStore) (r : ℕ) : Option Graph := s.get? r

/-- An in-place mutation of the graph behind reference `r`. -/
def storeModify (s : GraphStore) (r : ℕ) (f : Graph → Graph) : GraphStore :=
  s.set r (f ((s.get? r).getD emptyGraph))

/-- `applyFailure` at the reference level: `graph.copy()` allocates a
fresh reference (line 464) and every `dropNode`/`dropEdge` mutates only
that fresh reference, never the input one. -/
def applyFailureStore (s : GraphStore) (r : ℕ) (failureType : String)
    (failureTargets : List String) : GraphStore × ℕ :=
  let g := (storeGet s r).getD emptyGraph
  let s1 := s ++ [g]
  let r1 := s.length
  if failureTargets.length = 0 then (s1, r1)
  else if failureType = "node" then
    (failureTargets.foldl (fun st nid => storeModify st r1 (fun fg => nodeFailStep fg nid)) s1, r1)
  else if failureType = "edge" then
    (failureTargets.foldl (fun st sp => storeModify st r1 (fun fg => edgeFailStep fg sp)) s1, r1)
  else if failureType = "layer" then
    let fg := (storeGet s1 r1).getD emptyGraph
    let nodesToRemove := (fg.nodes.filter (fun p =>
      match p.2.layer with
      | some l => failureTargets.contains l
      | none => false)).map (fun p => p.1)
    (nodesToRemove.foldl (fun st n => storeModify st r1 (fun fg2 => fg2.dropNode n)) s1, r1)
  else (s1, r1)

/-- An OD pair (§3): source/target ids plus optional display names. -/
structure ODPair where
  source : String
  target : String
  sourceName : Option String
  targetName : Option String
deriving DecidableEq, Repr

/-- One per-pair row of the Metrics Bundle result list (lines 528-548). -/
structure ODResult where
  source : String
  target : String
  sourceName : String
  targetName : String
  result : PathResult
  reachable : Bool
deriving DecidableEq, Repr

/-- The Metrics Bundle (lines 552-560). -/
structure MetricsBundle where
  avgTime : ℚ
  avgCost : ℚ
  avgTransfers : ℚ
  disconnected : ℕ
  totalPairs : ℕ
  validPairs : ℕ
  results : List ODResult
deriving DecidableEq, Repr

/-- Running accumulators of `computeMetrics` (lines 506-511). -/
structure MetricsAcc where
  results : List ODResult
  totalTime : ℚ
  totalCost : ℚ
  totalTransfers : ℕ
  disconnected : ℕ
  validPairs : ℕ
deriving DecidableEq, Repr

/-- One OD pair of the `computeMetrics` loop (lines 513-550): a pair with
infinite time counts as disconnected, otherwise its metrics join the
running sums. -/
def metricsStep (g : Graph) (objective : Objective) (acc : MetricsAcc)
    (p : ODPair) : MetricsAcc :=
  let result := computeShortestPath g p.source p.target objective
  let row : Bool → ODResult := fun reach =>
    { source := p.source
      target := p.target
      sourceName := strOr p.sourceName p.source
      targetName := strOr p.targetName p.target
      result := result
      reachable := reach }
  if result.time = none then
    { acc with
      disconnected := acc.disconnected + 1
      results := acc.results ++ [row false] }
  else
    { acc with
      totalTime := acc.totalTime + result.time.getD 0
      totalCost := acc.totalCost + result.cost.getD 0
      totalTransfers := acc.totalTransfers + result.transfers.getD 0
      validPairs := acc.validPairs + 1
      results := acc.results ++ [row true] }

/-- `computeMetrics` (lines 503-570). -/
def computeMetrics (g : Graph) (odPairs : List ODPair)
    (objective : Objective) : MetricsBundle :=
  let acc := odPairs.foldl (metricsStep g objective)
    { results := [], totalTime := 0, totalCost := 0, totalTransfers := 0,
      disconnected := 0, validPairs := 0 }
  { avgTime := if acc.validPairs > 0 then acc.totalTime / (acc.validPairs : ℚ) else 0
    avgCost := if acc.validPairs > 0 then acc.totalCost / (acc.validPairs : ℚ) else 0
    avgTransfers := if acc.validPairs > 0 then (acc.totalTransfers : ℚ) / (acc.validPairs : ℚ) else 0
    disconnected := acc.disconnected
    totalPairs := odPairs.length
    validPairs := acc.validPairs
    results := acc.results }

/-- Candidate Link (§3): the source fields `from`/`to`/`type` are
`fromId`/`toId`/`ctype` here. -/
structure Candidate where
  fromId : String
  toId : String
  fromName : Option String
  toName : Option String
  ctype : String
  distance : ℚ
  priority : ℚ
deriving DecidableEq, Repr

/-- The `${from}_${to}` key used by the candidate dedup set (line 600). -/
def candKey (f t : String) : String := f ++ "_" ++ t

/-- Generation state: the candidate list and the `candidateSet` keys. -/
abbrev CandState := List Candidate × List String

/-- The `addCandidate` closure of `generateCandidates` (lines 599-629):
skips unordered-pair duplicates, pairs already connected in either graph,
and pairs whose endpoint records are missing; otherwise appends the
candidate and records its key. `dist` abstracts `euclideanDistance`
(lines 575-584), which evaluates floating-point trigonometry that has no
exact shallow embedding; every claim about the generator holds for an
arbitrary distance function. -/
def addCandidate (nodes : List NodeRec) (originalGraph failedGraph : Graph)
    (dist : ℚ → ℚ → ℚ → ℚ → ℚ) (st : CandState)
    (f t ctype : String) (priority : ℚ) : CandState :=
  if st.2.contains (candKey f t) || st.2.contains (candKey t f) then st
  else if failedGraph.hasEdge f t || originalGraph.hasEdge f t then st
  else
    match nodes.find? (fun n => n.node_id == f), nodes.find? (fun n => n.node_id == t) with
    | some fromNode, some toNode =>
      (st.1 ++ [{ fromId := f, toId := t, fromName := fromNode.name,
                  toName := toNode.name, ctype := ctype,
                  distance := dist fromNode.lat fromNode.lon toNode.lat toNode.lon,
                  priority := priority }],
       st.2 ++ [candKey f t])
    | _, _ => st

/-- Strategy 1 (lines 632-643): all ordered index pairs `i < j` of bus
hubs whose straight-line distance lies in [2, 6] km. -/
def hubNeighborLoop (nodes : List NodeRec) (og fg : Graph)
    (dist : ℚ → ℚ → ℚ → ℚ → ℚ) : List NodeRec → CandState → CandState
  | [], st => st
  | h :: rest, st =>
    hubNeighborLoop nodes og fg dist rest (rest.foldl (fun st2 h2 =>
      if 2 ≤ dist h.lat h.lon h2.lat h2.lon ∧ dist h.lat h.lon h2.lat h2.lon ≤ 6 then
        addCandidate nodes og fg dist st2 h.node_id h2.node_id "hub_neighbor" 10
      else st2) st)

/-- Strategy 2 (lines 645-656): every metro × mmts station pair with
distance in [0.5, 4] km. -/
def crossRailLoop (nodes : List NodeRec) (og fg : Graph)
    (dist : ℚ → ℚ → ℚ → ℚ → ℚ) (metroStations mmtsStations : List NodeRec)
    (st : CandState) : CandState :=
  metroStations.foldl (fun st1 metro =>
    mmtsStations.foldl (fun st2 mmts =>
      if 0.5 ≤ dist metro.lat metro.lon mmts.lat mmts.lon ∧
          dist metro.lat metro.lon mmts.lat mmts.lon ≤ 4 then
        addCandidate nodes og fg dist st2 metro.node_id mmts.node_id "cross_rail" 8
      else st2) st1) st

/-- The comparator at line 661, literally `(b.time - a.time) - (a.time - 0)`
(reachable results have finite time, so `getD 0` never fires). -/
def odCmp (a b : ODResult) : ℚ :=
  ((b.result.time.getD 0) - (a.result.time.getD 0)) - ((a.result.time.getD 0) - 0)

/-- The `topAffected` selection of strategy 3 (lines 659-662): reachable
results, sorted with `odCmp`, first five taken. -/
def odDrivenTop (scenarioResults : List ODResult) : List ODResult :=
  (jsSortWith odCmp (scenarioResults.filter (fun r => r.reachable))).take 5

/-- Strategy 3 body (lines 664-672): for paths longer than two nodes,
propose (first node, midpoint node); the `od.path[0] && od.path[midPoint]`
guard is JS truthiness on the id strings. -/
def odDrivenLoop (nodes : List NodeRec) (og fg : Graph)
    (dist : ℚ → ℚ → ℚ → ℚ → ℚ) (topAffected : List ODResult)
    (st : CandState) : CandState :=
  topAffected.foldl (fun st1 od =>
    match od.result.path with
    | some p =>
      if p.length > 2 then
        match p.get? 0, p.get? (p.length / 2) with
        | some a, some b =>
          if a ≠ "" ∧ b ≠ "" then
            addCandidate nodes og fg dist st1 a b "od_driven" 7
          else st1
        | _, _ => st1
      else st1
    | none => st1) st

/-- `majorHubs` filter of strategy 4 (lines 675-678). -/
def majorHubFilter (n : NodeRec) : Bool :=
  (n.ntype == some "hub" || n.ntype == some "station") &&
    (n.layer == some "bus" || n.layer == some "metro")

/-- Inner loop of strategy 4 (lines 681-691): guarded mid-generation by
`candidates.length < 40`. -/
def expressHubInner (nodes : List NodeRec) (og fg : Graph)
    (dist : ℚ → ℚ → ℚ → ℚ → ℚ) (h : NodeRec) :
    List NodeRec → CandState → CandState
  | [], st => st
  | h2 :: rest, st =>
    if st.1.length < 40 then
      expressHubInner nodes og fg dist h rest
        (if !(h.region == h2.region) then
          (if 3 ≤ dist h.lat h.lon h2.lat h2.lon ∧ dist h.lat h.lon h2.lat h2.lon ≤ 15 then
            addCandidate nodes og fg dist st h.node_id h2.node_id "express_hub" 6
          else st)
        else st)
    else st

/-- Outer loop of strategy 4 (lines 680-692). -/
def expressHubOuter (nodes : List NodeRec) (og fg : Graph)
    (dist : ℚ → ℚ → ℚ → ℚ → ℚ) : List NodeRec → CandState → CandState
  | [], st => st
  | h :: rest, st =>
    if st.1.length < 40 then
      expressHubOuter nodes og fg dist rest (expressHubInner nodes og fg dist h rest st)
    else st

/-- The final sort comparator at line 696: descending priority. -/
def priorityCmp (a b : Candidate) : ℚ := b.priority - a.priority

/-- `generateCandidates` (lines 594-698). -/
def generateCandidates (dist : ℚ → ℚ → ℚ → ℚ → ℚ) (nodes : List NodeRec)
    (originalGraph failedGraph : Graph) (scenarioResults : List ODResult) :
    List Candidate :=
  let busHubs := nodes.filter (fun n => n.ntype == some "hub" && n.layer == some "bus")
  let st1 := hubNeighborLoop nodes originalGraph failedGraph dist busHubs ([], [])
  let metroStations := nodes.filter (fun n => n.layer == some "metro")
  let mmtsStations := nodes.filter (fun n => n.layer == some "mmts")
  let st2 := crossRailLoop nodes originalGraph failedGraph dist metroStations mmtsStations st1
  let st3 := odDrivenLoop nodes originalGraph failedGraph dist (odDrivenTop scenarioResults) st2
  let majorHubs := nodes.filter majorHubFilter
  let st4 := expressHubOuter nodes originalGraph failedGraph dist majorHubs st3
  (jsSortWith priorityCmp st4.1).take 30

/-- A Recommendation (§3): the chosen candidate with its assigned
properties, measured improvement, and the metrics at selection time
(lines 838-842). -/
structure SelectedLink where
  cand : Candidate
  time : ℚ
  cost : ℚ
  transportMode : String
  improvement : ℚ
  metrics : MetricsBundle
deriving DecidableEq, Repr

/-- The objective projection of a Metrics Bundle (lines 733-735, 801-803). -/
def objValue (objective : Objective) (m : MetricsBundle) : ℚ :=
  match objective with
  | .time => m.avgTime
  | .cost => m.avgCost
  | .transfers => m.avgTransfers

/-- Concrete time/cost/mode assigned to a candidate edge by its strategy
type (lines 761-784). -/
def candidateEdgeProps (coefficients : Coefficients) (candidate : Candidate) :
    ℚ × ℚ × String :=
  if candidate.ctype = "hub_neighbor" ∨ candidate.ctype = "express_hub" then
    let baseTime := candidate.distance / 35 * 60
    let baseCost := candidate.distance * 3
    (baseTime * coefficients.timeMultiplier, baseCost * coefficients.costMultiplier, "bus")
  else if candidate.ctype = "cross_rail" then
    let baseTime := candidate.distance / 5 * 60
    (baseTime * coefficients.timeMultiplier, 0, "walking")
  else
    let baseTime := candidate.distance / 25 * 60
    let baseCost := candidate.distance * 2.5
    (baseTime * coefficients.timeMultiplier, baseCost * coefficients.costMultiplier, "bus")

/-- Attributes of an inserted candidate edge (lines 787-797 and 824-836);
the unread `reason`/`edge_type` spread fields are omitted, and the fields
`buildGraph` would set are left undefined exactly as in the source. -/
def candidateEdgeAttrs (objective : Objective) (t c d : ℚ) (tm : String) : EdgeAttrs :=
  { weight := match objective with | .time => t | .cost => c | .transfers => t * 0.001
    transportMode := tm
    mode := tm
    distance := d
    time := t
    cost := c
    baseTime := none
    baseCost := none
    originalCost := none
    capacityFactor := none
    intra_or_inter := some "inter"
    isInterModal := none }

/-- Evaluation of a single candidate inside a round (lines 757-811):
insert it into a scratch copy, recompute the metrics, and report
(time, cost, mode, improvement, test metrics); `none` models the caught
`addEdge` exception (line 812). -/
def candidateEvalOne (odPairs : List ODPair) (objective : Objective)
    (coefficients : Coefficients) (baselineValue : ℚ) (workingGraph : Graph)
    (candidate : Candidate) : Option (ℚ × ℚ × String × ℚ × MetricsBundle) :=
  let props := candidateEdgeProps coefficients candidate
  match workingGraph.addEdge? candidate.fromId candidate.toId
      (candidateEdgeAttrs objective props.1 props.2.1 candidate.distance props.2.2) with
  | none => none
  | some testGraph =>
    let testMetrics := computeMetrics testGraph odPairs objective
    let testValue := objValue objective testMetrics
    some (props.1, props.2.1, props.2.2, baselineValue - testValue, testMetrics)

/-- One selection round (lines 740-815): the running best starts at
improvement 0 and an empty candidate, and is replaced only on a strictly
larger improvement. -/
def evalRound (odPairs : List ODPair) (objective : Objective)
    (coefficients : Coefficients) (baselineValue : ℚ) (workingGraph : Graph)
    (remaining : List Candidate) :
    ℚ × Option (Candidate × ℚ × ℚ × String × MetricsBundle) :=
  remaining.foldl (fun st candidate =>
    match candidateEvalOne odPairs objective coefficients baselineValue
        workingGraph candidate with
    | none => st
    | some (t, c, tm, improvement, testMetrics) =>
      if improvement > st.1 then (improvement, some (candidate, t, c, tm, testMetrics))
      else st) (0, none)

/-- The selection loop of `greedyRecommendation` (lines 739-851),
structurally recursive on the remaining budget. A round with no strictly
improving candidate stops the whole process; a committed candidate is
appended to the selections and filtered out of the remaining pool; a
failed commit (caught exception, line 848) changes nothing and consumes
the iteration. -/
def greedyLoop (odPairs : List ODPair) (objective : Objective)
    (coefficients : Coefficients) (baselineValue : ℚ) :
    ℕ → Graph → List Candidate → List SelectedLink → List SelectedLink × Graph
  | 0, wg, _, sel => (sel, wg)
  | n + 1, wg, remaining, sel =>
    if remaining.length = 0 then (sel, wg)
    else
      match (evalRound odPairs objective coefficients baselineValue wg remaining).2 with
      | none => (sel, wg)
      | some best =>
        if (evalRound odPairs objective coefficients baselineValue wg remaining).1 ≤ 0 then
          (sel, wg)
        else
          match wg.addEdge? best.1.fromId best.1.toId
              (candidateEdgeAttrs objective best.2.1 best.2.2.1 best.1.distance
                best.2.2.2.1) with
          | some wg' =>
            greedyLoop odPairs objective coefficients baselineValue n wg'
              (remaining.filter (fun c =>
                !(c.fromId == best.1.fromId && c.toId == best.1.toId)))
              (sel ++ [{ cand := best.1, time := best.2.1, cost := best.2.2.1,
                         transportMode := best.2.2.2.1,
                         improvement := (evalRound odPairs objective coefficients
                           baselineValue wg remaining).1,
                         metrics := best.2.2.2.2 }])
          | none => greedyLoop odPairs objective coefficients baselineValue n wg remaining sel

structure GreedyOutput where
  selectedLinks : List SelectedLink
  finalGraph : Graph
  finalMetrics : MetricsBundle
deriving DecidableEq, Repr

/-- `greedyRecommendation` (lines 711-858). The progress callback is
purely informational (§4.6) and has no counterpart in the model. -/
def greedyRecommendation (failedGraph : Graph) (candidates : List Candidate)
    (odPairs : List ODPair) (budget : ℕ) (objective : Objective)
    (timeOfDayCoefficients : Option Coefficients) : GreedyOutput :=
  let workingGraph := failedGraph
  let coefficients := timeOfDayCoefficients.getD defaultCoefficients
  let baselineMetrics := computeMetrics workingGraph odPairs objective
  let baselineValue := objValue objective baselineMetrics
  let out := greedyLoop odPairs objective coefficients baselineValue budget
    workingGraph candidates []
  { selectedLinks := out.1, finalGraph := out.2,
    finalMetrics := computeMetrics out.2 odPairs objective }

/-- A walk in the graph: consecutive nodes joined by edges (a singleton
walk only requires the node to exist). -/
def isWalk (g : Graph) : List String → Bool
  | [] => false
  | [x] => g.hasNode x
  | x :: y :: rest => g.hasEdge x y && isWalk g (y :: rest)

/-- A walk from `s` to `t`. -/
def WalkFrom (g : Graph) (s t : String) (p : List String) : Prop :=
  isWalk g p = true ∧ p.head? = some s ∧ p.getLast? = some t

/-- `t` is reachable from `s`: some walk (equivalently, some path)
connects them. -/
def Reachable (g : Graph) (s t : String) : Prop := ∃ p, WalkFrom g s t p

/-- The transfer count the engine derives post hoc for a concrete path
(the walk of lines 378-429, projected to its transfer counter). -/
def walkTransfers (g : Graph) (p : List String) : Option ℕ :=
  (walkPath g p initialWalkAcc).map (fun a => a.transfers)

/-! ### Supporting lemmas -/

lemma buildGraphStep_foldl_mem (objective : Objective) (coefficients : Coefficients)
    (preferMetro : Bool) :
    ∀ (l : List EdgeRec) (g : Graph) (ent : String × String × EdgeAttrs),
      ent ∈ (l.foldl (buildGraphStep objective coefficients preferMetro) g).edges →
      ent ∈ g.edges ∨ ∃ e ∈ l, ent =
        (e.from_id, e.to_id, buildGraphEdgeAttrs objective coefficients preferMetro e)
  | [], _, _, h => Or.inl h
  | e :: l, g, ent, h => by
    have ih := buildGraphStep_foldl_mem objective coefficients preferMetro l
      (buildGraphStep objective coefficients preferMetro g e) ent (by simpa using h)
    rcases ih with hg | ⟨e', he', heq⟩
    · unfold buildGraphStep at hg
      split at hg
      · exact Or.inl hg
      · split at hg
        · exact Or.inl hg
        · simp only [List.mem_append, List.mem_singleton] at hg
          rcases hg with hg | hg
          · exact Or.inl hg
          · exact Or.inr ⟨e, List.mem_cons_self e l, hg⟩
    · exact Or.inr ⟨e', List.mem_cons_of_mem _ he', heq⟩

/-- Every edge of a built graph carries the attributes computed from one
of the input records. -/
lemma buildGraph_edges_from_records (nodes : List NodeRec) (edges : List EdgeRec)
    (objective : Objective) (coeffs : Option Coefficients) (ctx : Option RouteContext) :
    ∀ ent ∈ (buildGraph nodes edges objective coeffs ctx).edges,
      ∃ e ∈ edges, ent = (e.from_id, e.to_id,
        buildGraphEdgeAttrs objective (coeffs.getD defaultCoefficients)
          (preferMetroOf ctx) e) := by
  intro ent h
  have h' : ent ∈ (edges.foldl
      (buildGraphStep objective (coeffs.getD defaultCoefficients) (preferMetroOf ctx))
      (⟨nodes.map (fun n => (n.node_id, n)), []⟩ : Graph)).edges := h
  have := buildGraphStep_foldl_mem objective (coeffs.getD defaultCoefficients)
    (preferMetroOf ctx) edges ⟨nodes.map (fun n => (n.node_id, n)), []⟩ ent h'
  simpa using this

/-! ### C9 -/

set_option maxHeartbeats 1600000 in
/-- C9: the base cost of every edge a built graph stores comes from
`buildGraphBaseCost`; a metro-mode record is priced solely by the
distance-band fare table (≤2→10, ≤4→20, ≤6→30, ≤9→40, ≤12→50, ≤15→60,
≤18→70, ≤21→80, ≤24→90, else 100), and any other mode uses the supplied
cost, defaulting to 0 when absent. -/
theorem c9_base_cost_fare_table (nodes : List NodeRec) (edges : List EdgeRec)
    (objective : Objective) (coeffs : Option Coefficients) (ctx : Option RouteContext)
    (e : EdgeRec) (d : ℚ) :
    (∀ ent ∈ (buildGraph nodes edges objective coeffs ctx).edges,
      ∃ er ∈ edges, ent.2.2.baseCost = some (buildGraphBaseCost er)) ∧
    (transportModeOf e = "metro" →
      buildGraphBaseCost e = calculateMetroFare e.distance_km) ∧
    (transportModeOf e ≠ "metro" → buildGraphBaseCost e = (e.cost_rs).getD 0) ∧
    (d ≤ 2 → calculateMetroFare d = 10) ∧
    (2 < d ∧ d ≤ 4 → calculateMetroFare d = 20) ∧
    (4 < d ∧ d ≤ 6 → calculateMetroFare d = 30) ∧
    (6 < d ∧ d ≤ 9 → calculateMetroFare d = 40) ∧
    (9 < d ∧ d ≤ 12 → calculateMetroFare d = 50) ∧
    (12 < d ∧ d ≤ 15 → calculateMetroFare d = 60) ∧
    (15 < d ∧ d ≤ 18 → calculateMetroFare d = 70) ∧
    (18 < d ∧ d ≤ 21 → calculateMetroFare d = 80) ∧
    (21 < d ∧ d ≤ 24 → calculateMetroFare d = 90) ∧
    (24 < d → calculateMetroFare d = 100) := by
  refine ⟨?_, ?_, ?_, ?_, ?_, ?_, ?_, ?_, ?_, ?_, ?_, ?_, ?_⟩
  · intro ent h
    obtain ⟨er, her, heq⟩ := buildGraph_edges_from_records nodes edges objective coeffs ctx ent h
    exact ⟨er, her, by rw [heq]; rfl⟩
  · intro h; unfold buildGraphBaseCost; rw [if_pos h]
  · intro h; unfold buildGraphBaseCost; rw [if_neg h]
  · intro h; unfold calculateMetroFare; split_ifs <;> linarith
  · rintro ⟨h1, h2⟩; unfold calculateMetroFare; split_ifs <;> linarith
  · rintro ⟨h1, h2⟩; unfold calculateMetroFare; split_ifs <;> linarith
  · rintro ⟨h1, h2⟩; unfold calculateMetroFare; split_ifs <;> linarith
  · rintro ⟨h1, h2⟩; unfold calculateMetroFare; split_ifs <;> linarith
  · rintro ⟨h1, h2⟩; unfold calculateMetroFare; split_ifs <;> linarith
  · rintro ⟨h1, h2⟩; unfold calculateMetroFare; split_ifs <;> linarith
  · rintro ⟨h1, h2⟩; unfold calculateMetroFare; split_ifs <;> linarith
  · rintro ⟨h1, h2⟩; unfold calculateMetroFare; split_ifs <;> linarith
  · intro h; unfold calculateMetroFare; split_ifs <;> linarith

/-- A metro edge record of length 3 km (C9 witness input). -/
def c9edge : EdgeRec :=
  { from_id := "a", to_id := "b", mode := some "metro", edge_type := none,
    intra_or_inter := none, distance_km := 3, time_min := 1, cost_rs := none }

/-- Witness for C9 at a concrete metro edge of length 3 km. -/
theorem c9_base_cost_fare_table_witness : buildGraphBaseCost c9edge = 20 := by
  have h := c9_base_cost_fare_table [] [] Objective.time none none c9edge 3
  rw [show c9edge.distance_km = 3 from rfl] at h
  rw [h.2.1 (by decide)]
  exact h.2.2.2.2.1 ⟨by norm_num, by norm_num⟩

/-! ### C5 -/

def c5node (i : String) : NodeRec :=
  { node_id := i, name := none, lat := 0, lon := 0, layer := none, region := none,
    ntype := none }

/-- An intra-modal MMTS edge between two metro stations: a fixed-rail,
non-transfer edge. -/
def c5edge : EdgeRec :=
  { from_id := "A_Metro", to_id := "B_Metro", mode := some "mmts", edge_type := none,
    intra_or_inter := some "intra", distance_km := 5, time_min := 10, cost_rs := some 10 }

def c5graph : Graph :=
  buildGraph [c5node "A_Metro", c5node "B_Metro"] [c5edge] Objective.cost none
    (some { source := some "A_Metro", target := some "B_Metro" })

/-- C5 counterexample: under a Metro-to-Metro route context (default
coefficients, so the unpenalized adjusted cost is the base cost), an
intra-modal MMTS edge — a fixed-rail, non-transfer edge — is stored with
cost 14 = 10 × 1.4, not its base cost 10: the other rail mode IS
penalized, against the claim. -/
theorem c5_mmts_edge_penalized :
    (c5graph.getEdgeAttributes "A_Metro" "B_Metro").map
      (fun a => (a.mode, a.intra_or_inter, a.baseCost, a.cost)) =
      some ("mmts", some "intra", some 10, 14) ∧
    isRailMode "mmts" = true ∧ (14 : ℚ) ≠ 10 := by
  refine ⟨of_decide_eq_true (by with_unfolding_all rfl), by decide, by norm_num⟩

/-- C5 (amended): under a Metro-to-Metro route context, exactly the
non-metro, non-`'inter'` edges — including edges of the other rail mode —
have their adjusted cost multiplied by 1.4; metro edges and `'inter'`
transfer edges are never penalized. -/
theorem c5_amended_metro_preference (nodes : List NodeRec) (edges : List EdgeRec)
    (objective : Objective) (coeffs : Option Coefficients) (ctx : Option RouteContext)
    (c : Coefficients) (e : EdgeRec)
    (hp : preferMetroOf ctx = true) :
    (∀ ent ∈ (buildGraph nodes edges objective coeffs ctx).edges,
      ∃ er ∈ edges, ent.2.2.cost =
        buildGraphAdjustedCost (coeffs.getD defaultCoefficients) true er) ∧
    (transportModeOf e ≠ "metro" → e.intra_or_inter ≠ some "inter" →
      buildGraphAdjustedCost c true e = buildGraphUnpenalizedCost c e * 1.4) ∧
    ((transportModeOf e = "metro" ∨ e.intra_or_inter = some "inter") →
      buildGraphAdjustedCost c true e = buildGraphUnpenalizedCost c e) := by
  refine ⟨?_, ?_, ?_⟩
  · intro ent h
    obtain ⟨er, her, heq⟩ := buildGraph_edges_from_records nodes edges objective coeffs ctx ent h
    refine ⟨er, her, ?_⟩
    rw [heq]
    show buildGraphAdjustedCost (coeffs.getD defaultCoefficients) (preferMetroOf ctx) er = _
    rw [hp]
  · intro h1 h2
    unfold buildGraphAdjustedCost
    rw [if_pos]
    simp [h1, h2]
  · intro h
    unfold buildGraphAdjustedCost
    rw [if_neg]
    rcases h with h | h <;> simp [h]

/-- Witness for C5 (amended) at the concrete MMTS edge: penalized to 14. -/
theorem c5_amended_metro_preference_witness :
    buildGraphAdjustedCost defaultCoefficients true c5edge = 14 := by
  have h := c5_amended_metro_preference [c5node "A_Metro", c5node "B_Metro"] [c5edge]
    Objective.cost none (some { source := some "A_Metro", target := some "B_Metro" })
    defaultCoefficients c5edge (by decide)
  rw [h.2.1 (by decide) (by decide)]
  exact of_decide_eq_true (by with_unfolding_all rfl)

/-! ### C10 -/

lemma hasEdge_dropEdge_self (g : Graph) (u v : String) :
    (g.dropEdge u v).hasEdge u v = false := by
  unfold Graph.hasEdge Graph.dropEdge
  rw [List.any_eq_false]
  intro e he
  rw [List.mem_filter] at he
  have h2 := he.2
  simp only [Bool.not_eq_true'] at h2
  simp [h2]

lemma applyFailure_edge_single (g : Graph) (t : String) :
    applyFailure g "edge" [t] = edgeFailStep g t := rfl

/-- C10: an `'edge'` failure target is split at every underscore and only
the first two tokens name the endpoints of the edge to drop; any edge
whose unordered endpoint pair is not literally those two tokens — for
example when a node id itself contains an underscore — is left in place. -/
theorem c10_applyFailure_edge_token_split (g : Graph) (t : String) :
    (∀ f s rest, splitUnderscore t = f :: s :: rest →
      (applyFailure g "edge" [t]).hasEdge f s = false) ∧
    (∀ u v a, (u, v, a) ∈ g.edges →
      (∀ f s rest, splitUnderscore t = f :: s :: rest →
        ¬((u = f ∧ v = s) ∨ (u = s ∧ v = f))) →
      (u, v, a) ∈ (applyFailure g "edge" [t]).edges) := by
  constructor
  · intro f s rest hsplit
    rw [applyFailure_edge_single]
    unfold edgeFailStep
    rw [hsplit]
    dsimp only
    by_cases hc : g.hasEdge f s = true
    · rw [if_pos hc]; exact hasEdge_dropEdge_self g f s
    · rw [if_neg hc]; exact Bool.not_eq_true _ ▸ (Bool.eq_false_iff.mpr hc)
  · intro u v a hmem hcond
    rw [applyFailure_edge_single]
    unfold edgeFailStep
    cases hsplit : splitUnderscore t with
    | nil => exact hmem
    | cons f tail =>
      cases tail with
      | nil => exact hmem
      | cons s rest =>
        dsimp only
        by_cases hc : g.hasEdge f s = true
        · rw [if_pos hc]
          unfold Graph.dropEdge
          show _ ∈ List.filter _ _
          rw [List.mem_filter]
          refine ⟨hmem, ?_⟩
          have hne := hcond f s rest hsplit
          simp only [Bool.not_eq_true']
          rw [Bool.or_eq_false_iff]
          constructor <;> rw [Bool.and_eq_false_iff]
          · by_cases h1 : u = f
            · right
              apply beq_eq_false_iff_ne.mpr
              intro h2
              exact hne (Or.inl ⟨h1, h2⟩)
            · left
              exact beq_eq_false_iff_ne.mpr h1
          · by_cases h1 : u = s
            · right
              apply beq_eq_false_iff_ne.mpr
              intro h2
              exact hne (Or.inr ⟨h1, h2⟩)
            · left
              exact beq_eq_false_iff_ne.mpr h1
        · rw [if_neg hc]; exact hmem

def c10node (i : String) : NodeRec :=
  { node_id := i, name := none, lat := 0, lon := 0, layer := none, region := none,
    ntype := none }

def c10attrs : EdgeAttrs :=
  { weight := 1, transportMode := "bus", mode := "bus", distance := 1, time := 1,
    cost := 1, baseTime := none, baseCost := none, originalCost := none,
    capacityFactor := none, intra_or_inter := none, isInterModal := none }

/-- A graph whose single edge joins the node `a_b` (an id containing an
underscore) to the node `c`. -/
def c10graph : Graph :=
  ⟨[("a_b", c10node "a_b"), ("c", c10node "c")], [("a_b", "c", c10attrs)]⟩

/-- Witness for C10: failing the edge key `a_b_c` tokenizes to
`a`/`b` and silently leaves the `a_b — c` edge in place. -/
theorem c10_applyFailure_edge_token_split_witness :
    ("a_b", "c", c10attrs) ∈ (applyFailure c10graph "edge" ["a_b_c"]).edges ∧
    (applyFailure c10graph "edge" ["a_b_c"]).hasEdge "a" "b" = false := by
  have h := c10_applyFailure_edge_token_split c10graph "a_b_c"
  have hsp : splitUnderscore "a_b_c" = ["a", "b", "c"] := by decide
  refine ⟨h.2 "a_b" "c" c10attrs (by decide) ?_, h.1 "a" "b" ["c"] hsp⟩
  intro f s rest hsp2
  rw [hsp] at hsp2
  cases hsp2
  decide

/-! ### C2 -/

lemma storeGet_lt (s : GraphStore) (r : ℕ) (g : Graph)
    (h : storeGet s r = some g) : r < s.length := by
  by_contra hge
  have h' : s.get? r = some g := h
  rw [List.get?_eq_none.mpr (Nat.le_of_not_lt hge)] at h'
  exact Option.noConfusion h'

lemma storeModify_get_same (s : GraphStore) (r : ℕ) (f : Graph → Graph) (g : Graph)
    (h : storeGet s r = some g) : storeGet (storeModify s r f) r = some (f g) := by
  have hlt := storeGet_lt s r g h
  show (s.set r (f ((s.get? r).getD emptyGraph))).get? r = some (f g)
  have h' : s.get? r = some g := h
  rw [h']
  exact List.get?_set_eq_of_lt _ hlt

lemma storeModify_get_other (s : GraphStore) (r j : ℕ) (f : Graph → Graph)
    (h : r ≠ j) : storeGet (storeModify s r f) j = storeGet s j := by
  show (s.set r _).get? j = s.get? j
  exact List.get?_set_ne _ _ h

lemma storeFold_modify (F : String → Graph → Graph) (r : ℕ) :
    ∀ (ts : List String) (s : GraphStore) (g : Graph), storeGet s r = some g →
      (storeGet (ts.foldl (fun st t => storeModify st r (F t)) s) r
          = some (ts.foldl (fun gg t => F t gg) g)) ∧
      (∀ j, j ≠ r →
        storeGet (ts.foldl (fun st t => storeModify st r (F t)) s) j = storeGet s j)
  | [], _, _, h => ⟨h, fun _ _ => rfl⟩
  | t :: ts, s, g, h => by
    simp only [List.foldl_cons]
    have h1 := storeModify_get_same s r (F t) g h
    have ih := storeFold_modify F r ts (storeModify s r (F t)) (F t g) h1
    refine ⟨ih.1, fun j hj => ?_⟩
    rw [ih.2 j hj, storeModify_get_other s r j (F t) (fun hrj => hj hrj.symm)]

/-- C2: `applyFailure` never mutates the graph behind the input
reference — its content after the call is exactly what it was before,
for every failure kind and target list — and the returned reference is a
fresh one (distinct from the input reference) holding the failed copy. -/
theorem c2_applyFailure_no_mutation (s : GraphStore) (r : ℕ) (failureType : String)
    (failureTargets : List String) (g : Graph) (h : storeGet s r = some g) :
    (applyFailureStore s r failureType failureTargets).2 = s.length ∧
    (applyFailureStore s r failureType failureTargets).2 ≠ r ∧
    storeGet (applyFailureStore s r failureType failureTargets).1 r = some g ∧
    storeGet (applyFailureStore s r failureType failureTargets).1
        (applyFailureStore s r failureType failureTargets).2 =
      some (applyFailure g failureType failureTargets) := by
  have hlt : r < s.length := storeGet_lt s r g h
  have hne : s.length ≠ r := Nat.ne_of_gt hlt
  have hs1r : storeGet (s ++ [g]) r = some g := by
    rw [storeGet, List.get?_append hlt]; exact h
  have hs1len : storeGet (s ++ [g]) s.length = some g := by
    rw [storeGet, List.get?_concat_length]
  unfold applyFailureStore applyFailure
  rw [show (storeGet s r).getD emptyGraph = g from by rw [h]; rfl]
  split_ifs with h1 h2 h3 h4
  · exact ⟨rfl, hne, hs1r, hs1len⟩
  · have hf := storeFold_modify (fun nid fg => nodeFailStep fg nid) s.length
      failureTargets (s ++ [g]) g hs1len
    exact ⟨rfl, hne, by rw [hf.2 r (Nat.ne_of_lt hlt)]; exact hs1r, hf.1⟩
  · have hf := storeFold_modify (fun sp fg => edgeFailStep fg sp) s.length
      failureTargets (s ++ [g]) g hs1len
    exact ⟨rfl, hne, by rw [hf.2 r (Nat.ne_of_lt hlt)]; exact hs1r, hf.1⟩
  · have hf := storeFold_modify (fun n fg => fg.dropNode n) s.length
      ((g.nodes.filter (fun p =>
        match p.2.layer with
        | some l => failureTargets.contains l
        | none => false)).map (fun p => p.1)) (s ++ [g]) g hs1len
    refine ⟨rfl, hne, ?_, ?_⟩
    · simp only [hs1len, Option.getD_some]
      rw [hf.2 r (Nat.ne_of_lt hlt)]
      exact hs1r
    · simp only [hs1len, Option.getD_some]
      exact hf.1
  · exact ⟨rfl, hne, hs1r, hs1len⟩

/-- Witness for C2: a one-graph store, failing node `a_b`. -/
theorem c2_applyFailure_no_mutation_witness :
    (applyFailureStore [c10graph] 0 "node" ["a_b"]).2 ≠ 0 ∧
    storeGet (applyFailureStore [c10graph] 0 "node" ["a_b"]).1 0 = some c10graph := by
  have h := c2_applyFailure_no_mutation [c10graph] 0 "node" ["a_b"] c10graph rfl
  exact ⟨h.2.1, h.2.2.1⟩

/-! ### C3 -/

/-- The per-pair Path Results of a metrics run, in input order. -/
def pairResults (g : Graph) (odPairs : List ODPair) (objective : Objective) :
    List PathResult :=
  odPairs.map (fun p => computeShortestPath g p.source p.target objective)

/-- The reachable (finite-time) Path Results of a metrics run. -/
def reachableResults (g : Graph) (odPairs : List ODPair) (objective : Objective) :
    List PathResult :=
  (pairResults g odPairs objective).filter (fun r => !r.time.isNone)

lemma metricsStep_of_none (g : Graph) (objective : Objective) (acc : MetricsAcc)
    (p : ODPair) (h : (computeShortestPath g p.source p.target objective).time = none) :
    (metricsStep g objective acc p).disconnected = acc.disconnected + 1 ∧
    (metricsStep g objective acc p).validPairs = acc.validPairs ∧
    (metricsStep g objective acc p).totalTime = acc.totalTime ∧
    (metricsStep g objective acc p).totalCost = acc.totalCost ∧
    (metricsStep g objective acc p).totalTransfers = acc.totalTransfers := by
  unfold metricsStep
  rw [if_pos h]
  exact ⟨rfl, rfl, rfl, rfl, rfl⟩

lemma metricsStep_of_some (g : Graph) (objective : Objective) (acc : MetricsAcc)
    (p : ODPair)
    (h : ¬(computeShortestPath g p.source p.target objective).time = none) :
    (metricsStep g objective acc p).disconnected = acc.disconnected ∧
    (metricsStep g objective acc p).validPairs = acc.validPairs + 1 ∧
    (metricsStep g objective acc p).totalTime = acc.totalTime +
      (computeShortestPath g p.source p.target objective).time.getD 0 ∧
    (metricsStep g objective acc p).totalCost = acc.totalCost +
      (computeShortestPath g p.source p.target objective).cost.getD 0 ∧
    (metricsStep g objective acc p).totalTransfers = acc.totalTransfers +
      (computeShortestPath g p.source p.target objective).transfers.getD 0 := by
  unfold metricsStep
  rw [if_neg h]
  exact ⟨rfl, rfl, rfl, rfl, rfl⟩

lemma metricsFold_spec (g : Graph) (objective : Objective) :
    ∀ (l : List ODPair) (acc : MetricsAcc),
      (l.foldl (metricsStep g objective) acc).disconnected =
        acc.disconnected + ((pairResults g l objective).filter
          (fun r => r.time.isNone)).length ∧
      (l.foldl (metricsStep g objective) acc).validPairs =
        acc.validPairs + (reachableResults g l objective).length ∧
      (l.foldl (metricsStep g objective) acc).validPairs +
          (l.foldl (metricsStep g objective) acc).disconnected =
        acc.validPairs + acc.disconnected + l.length ∧
      (l.foldl (metricsStep g objective) acc).totalTime =
        acc.totalTime + ((reachableResults g l objective).map
          (fun r => r.time.getD 0)).sum ∧
      (l.foldl (metricsStep g objective) acc).totalCost =
        acc.totalCost + ((reachableResults g l objective).map
          (fun r => r.cost.getD 0)).sum ∧
      (l.foldl (metricsStep g objective) acc).totalTransfers =
        acc.totalTransfers + ((reachableResults g l objective).map
          (fun r => r.transfers.getD 0)).sum
  | [], acc => by
    simp [pairResults, reachableResults]
  | p :: l, acc => by
    have ih := metricsFold_spec g objective l (metricsStep g objective acc p)
    simp only [List.foldl_cons] at *
    by_cases h : (computeShortestPath g p.source p.target objective).time = none
    · have hs := metricsStep_of_none g objective acc p h
      have hfil : (pairResults g (p :: l) objective).filter (fun r => r.time.isNone) =
          computeShortestPath g p.source p.target objective ::
            (pairResults g l objective).filter (fun r => r.time.isNone) := by
        unfold pairResults
        rw [List.map_cons, List.filter_cons_of_pos (by simp [h])]
      have hreach : reachableResults g (p :: l) objective =
          reachableResults g l objective := by
        unfold reachableResults pairResults
        rw [List.map_cons, List.filter_cons_of_neg (by simp [h])]
      rw [hfil, hreach]
      refine ⟨?_, ?_, ?_, ?_, ?_, ?_⟩
      · rw [ih.1, hs.1, List.length_cons]; ring
      · rw [ih.2.1, hs.2.1]
      · rw [ih.2.2.1, hs.1, hs.2.1, List.length_cons]; ring
      · rw [ih.2.2.2.1, hs.2.2.1]
      · rw [ih.2.2.2.2.1, hs.2.2.2.1]
      · rw [ih.2.2.2.2.2, hs.2.2.2.2]
    · have hs := metricsStep_of_some g objective acc p h
      have hfil : (pairResults g (p :: l) objective).filter (fun r => r.time.isNone) =
          (pairResults g l objective).filter (fun r => r.time.isNone) := by
        unfold pairResults
        rw [List.map_cons, List.filter_cons_of_neg (by simp [h])]
      have hreach : reachableResults g (p :: l) objective =
          computeShortestPath g p.source p.target objective ::
            reachableResults g l objective := by
        unfold reachableResults pairResults
        rw [List.map_cons, List.filter_cons_of_pos
          (by simp [Option.isSome_iff_ne_none, h])]
      rw [hfil, hreach]
      refine ⟨?_, ?_, ?_, ?_, ?_, ?_⟩
      · rw [ih.1, hs.1]
      · rw [ih.2.1, hs.2.1, List.length_cons]; ring
      · rw [ih.2.2.1, hs.1, hs.2.1, List.length_cons]; ring
      · rw [ih.2.2.2.1, hs.2.2.1, List.map_cons, List.sum_cons]; ring
      · rw [ih.2.2.2.2.1, hs.2.2.2.1, List.map_cons, List.sum_cons]; ring
      · rw [ih.2.2.2.2.2, hs.2.2.2.2, List.map_cons, List.sum_cons]; ring

/-- C3: every Metrics Bundle satisfies `validPairs + disconnected =
totalPairs`; exactly the pairs whose Path Result has infinite time are
counted as disconnected; the time/cost/transfer sums range over the
reachable pairs only and each average divides by `validPairs`; and all
three averages are 0 when `validPairs = 0`. -/
theorem c3_computeMetrics_invariants (g : Graph) (odPairs : List ODPair)
    (objective : Objective) :
    (computeMetrics g odPairs objective).validPairs +
        (computeMetrics g odPairs objective).disconnected =
      (computeMetrics g odPairs objective).totalPairs ∧
    (computeMetrics g odPairs objective).totalPairs = odPairs.length ∧
    (computeMetrics g odPairs objective).disconnected =
      ((pairResults g odPairs objective).filter (fun r => r.time.isNone)).length ∧
    (computeMetrics g odPairs objective).validPairs =
      (reachableResults g odPairs objective).length ∧
    (computeMetrics g odPairs objective).avgTime =
      (if (reachableResults g odPairs objective).length = 0 then 0
       else ((reachableResults g odPairs objective).map (fun r => r.time.getD 0)).sum /
         ((reachableResults g odPairs objective).length : ℚ)) ∧
    (computeMetrics g odPairs objective).avgCost =
      (if (reachableResults g odPairs objective).length = 0 then 0
       else ((reachableResults g odPairs objective).map (fun r => r.cost.getD 0)).sum /
         ((reachableResults g odPairs objective).length : ℚ)) ∧
    (computeMetrics g odPairs objective).avgTransfers =
      (if (reachableResults g odPairs objective).length = 0 then 0
       else ((((reachableResults g odPairs objective).map
           (fun r => r.transfers.getD 0)).sum : ℕ) : ℚ) /
         ((reachableResults g odPairs objective).length : ℚ)) ∧
    ((computeMetrics g odPairs objective).validPairs = 0 →
      (computeMetrics g odPairs objective).avgTime = 0 ∧
      (computeMetrics g odPairs objective).avgCost = 0 ∧
      (computeMetrics g odPairs objective).avgTransfers = 0) := by
  have hf := metricsFold_spec g objective odPairs
    { results := [], totalTime := 0, totalCost := 0, totalTransfers := 0,
      disconnected := 0, validPairs := 0 }
  have hd : (computeMetrics g odPairs objective).disconnected =
      ((pairResults g odPairs objective).filter (fun r => r.time.isNone)).length := by
    show (odPairs.foldl (metricsStep g objective) _).disconnected = _
    rw [hf.1]; ring
  have hv : (computeMetrics g odPairs objective).validPairs =
      (reachableResults g odPairs objective).length := by
    show (odPairs.foldl (metricsStep g objective) _).validPairs = _
    rw [hf.2.1]; ring
  have hvd : (computeMetrics g odPairs objective).validPairs +
      (computeMetrics g odPairs objective).disconnected = odPairs.length := by
    show (odPairs.foldl (metricsStep g objective) _).validPairs +
      (odPairs.foldl (metricsStep g objective) _).disconnected = _
    rw [hf.2.2.1]; ring
  have htp : (computeMetrics g odPairs objective).totalPairs = odPairs.length := rfl
  have havgT : (computeMetrics g odPairs objective).avgTime =
      (if (reachableResults g odPairs objective).length = 0 then 0
       else ((reachableResults g odPairs objective).map (fun r => r.time.getD 0)).sum /
         ((reachableResults g odPairs objective).length : ℚ)) := by
    show (if (odPairs.foldl (metricsStep g objective) _).validPairs > 0
        then (odPairs.foldl (metricsStep g objective) _).totalTime / _ else 0) = _
    rw [hf.2.1, hf.2.2.2.1]
    simp only [zero_add, Nat.pos_iff_ne_zero]
    by_cases hz : (reachableResults g odPairs objective).length = 0
    · rw [if_neg (by simpa using hz), if_pos hz]
    · rw [if_pos (by simpa using hz), if_neg hz]
  have havgC : (computeMetrics g odPairs objective).avgCost =
      (if (reachableResults g odPairs objective).length = 0 then 0
       else ((reachableResults g odPairs objective).map (fun r => r.cost.getD 0)).sum /
         ((reachableResults g odPairs objective).length : ℚ)) := by
    show (if (odPairs.foldl (metricsStep g objective) _).validPairs > 0
        then (odPairs.foldl (metricsStep g objective) _).totalCost / _ else 0) = _
    rw [hf.2.1, hf.2.2.2.2.1]
    simp only [zero_add, Nat.pos_iff_ne_zero]
    by_cases hz : (reachableResults g odPairs objective).length = 0
    · rw [if_neg (by simpa using hz), if_pos hz]
    · rw [if_pos (by simpa using hz), if_neg hz]
  have havgR : (computeMetrics g odPairs objective).avgTransfers =
      (if (reachableResults g odPairs objective).length = 0 then 0
       else ((((reachableResults g odPairs objective).map
           (fun r => r.transfers.getD 0)).sum : ℕ) : ℚ) /
         ((reachableResults g odPairs objective).length : ℚ)) := by
    show (if (odPairs.foldl (metricsStep g objective) _).validPairs > 0
        then ((odPairs.foldl (metricsStep g objective) _).totalTransfers : ℚ) / _ else 0) = _
    rw [hf.2.1, hf.2.2.2.2.2]
    simp only [zero_add, Nat.pos_iff_ne_zero]
    by_cases hz : (reachableResults g odPairs objective).length = 0
    · rw [if_neg (by simpa using hz), if_pos hz]
    · rw [if_pos (by simpa using hz), if_neg hz]
  refine ⟨by rw [hvd, htp], htp, hd, hv, havgT, havgC, havgR, fun h0 => ?_⟩
  have hz : (reachableResults g odPairs objective).length = 0 := by rw [← hv]; exact h0
  exact ⟨by rw [havgT, if_pos hz], by rw [havgC, if_pos hz], by rw [havgR, if_pos hz]⟩

/-- Witness for C3's implication conjunct at a concrete empty run. -/
theorem c3_computeMetrics_invariants_witness :
    (computeMetrics emptyGraph [] Objective.time).validPairs +
        (computeMetrics emptyGraph [] Objective.time).disconnected =
      (computeMetrics emptyGraph [] Objective.time).totalPairs ∧
    (computeMetrics emptyGraph [] Objective.time).avgTime = 0 := by
  have h := c3_computeMetrics_invariants emptyGraph [] Objective.time
  exact ⟨h.1, (h.2.2.2.2.2.2.2 (by decide)).1⟩

/-! ### C8 -/

lemma jsInsert_perm (cmp : α → α → ℚ) (x : α) :
    ∀ l : List α, (jsInsert cmp x l).Perm (x :: l)
  | [] => List.Perm.refl _
  | y :: ys => by
    unfold jsInsert
    split
    · exact (((jsInsert_perm cmp x ys).cons y).trans (List.Perm.swap x y ys))
    · exact List.Perm.refl _

lemma jsSortAux_perm (cmp : α → α → ℚ) :
    ∀ (l acc : List α), (jsSortAux cmp acc l).Perm (acc ++ l)
  | [], acc => by
    rw [List.append_nil]
    exact List.Perm.refl acc
  | x :: xs, acc => by
    have ih := jsSortAux_perm cmp xs (jsInsert cmp x acc)
    refine ih.trans ?_
    have h1 : (jsInsert cmp x acc ++ xs).Perm ((x :: acc) ++ xs) :=
      (jsInsert_perm cmp x acc).append_right xs
    refine h1.trans ?_
    simpa using List.perm_middle.symm

lemma jsSortWith_perm (cmp : α → α → ℚ) (l : List α) :
    (jsSortWith cmp l).Perm l :=
  (jsSortAux_perm cmp l []).trans (by simp)

lemma mem_jsSortWith {cmp : α → α → ℚ} {l : List α} {a : α}
    (h : a ∈ jsSortWith cmp l) : a ∈ l :=
  (jsSortWith_perm cmp l).mem_iff.mp h

/-- Consecutive elements are joined by edges (no requirement that the
nodes exist — a returned search path ends at a node known to exist, which
`chain_isWalk` turns into a full walk). -/
def chainEdges (g : Graph) : List String → Bool
  | [] => false
  | [_] => true
  | x :: y :: rest => g.hasEdge x y && chainEdges g (y :: rest)

lemma chainEdges_ne_nil {g : Graph} {p : List String}
    (h : chainEdges g p = true) : p ≠ [] := by
  intro he; subst he; exact Bool.noConfusion h

lemma chainEdges_append (g : Graph) :
    ∀ (p : List String) (x v : String), chainEdges g p = true →
      p.getLast? = some x → g.hasEdge x v = true → chainEdges g (p ++ [v]) = true
  | [], _, _, h, _, _ => absurd h (by simp [chainEdges])
  | [y], x, v, _, hl, he => by
    have : y = x := by simpa using hl
    subst this
    simpa [chainEdges] using he
  | y :: z :: rest, x, v, h, hl, he => by
    rw [chainEdges, Bool.and_eq_true] at h
    have hl' : (z :: rest).getLast? = some x := by
      rw [List.getLast?_cons_cons] at hl; exact hl
    have ih := chainEdges_append g (z :: rest) x v h.2 hl' he
    show chainEdges g (y :: ((z :: rest) ++ [v])) = true
    rw [show y :: ((z :: rest) ++ [v]) = y :: z :: (rest ++ [v]) from rfl]
    rw [chainEdges, Bool.and_eq_true]
    exact ⟨h.1, ih⟩

lemma chain_isWalk (g : Graph) :
    ∀ (p : List String) (v : String), chainEdges g p = true →
      p.getLast? = some v → g.hasNode v = true → isWalk g p = true
  | [], _, h, _, _ => absurd h (by simp [chainEdges])
  | [y], v, _, hl, hn => by
    have : y = v := by simpa using hl
    subst this
    simpa [isWalk] using hn
  | y :: z :: rest, v, h, hl, hn => by
    rw [chainEdges, Bool.and_eq_true] at h
    have hl' : (z :: rest).getLast? = some v := by
      rw [List.getLast?_cons_cons] at hl; exact hl
    rw [isWalk, Bool.and_eq_true]
    exact ⟨h.1, chain_isWalk g (z :: rest) v h.2 hl' hn⟩

lemma getEdgeAttributes_hasEdge {g : Graph} {u v : String} {a : EdgeAttrs}
    (h : g.getEdgeAttributes u v = some a) : g.hasEdge u v = true := by
  unfold Graph.getEdgeAttributes at h
  unfold Graph.hasEdge
  cases hf : g.edges.find? (fun e =>
      (e.1 == u && e.2.1 == v) || (e.1 == v && e.2.1 == u)) with
  | none => rw [hf] at h; exact Option.noConfusion h
  | some e =>
    rw [List.any_eq_true]
    refine ⟨e, List.mem_of_find?_eq_some hf, ?_⟩
    have hp := List.find?_some hf
    simpa using hp

lemma head?_append_single {α : Type} (v : α) :
    ∀ (p : List α), p ≠ [] → (p ++ [v]).head? = p.head?
  | [], h => absurd rfl h
  | _ :: _, _ => rfl

/-- Invariant of the transfer-search queue: every entry's path is an
edge chain from the source ending at the entry's node. -/
def TQinv (g : Graph) (s : String) (e : TQEntry) : Prop :=
  chainEdges g e.path = true ∧ e.path.head? = some s ∧ e.path.getLast? = some e.node

lemma minTransfersRelax_inv (g : Graph) (s : String) (current : TQEntry)
    (hc : TQinv g s current) :
    ∀ (ns : List String) (best : List (String × ℕ × ℚ)) (q : List TQEntry),
      (∀ e ∈ q, TQinv g s e) →
      ∀ e ∈ (ns.foldl (minTransfersRelax g current) (best, q)).2, TQinv g s e
  | [], _, _, hq => by simpa using hq
  | n :: ns, best, q, hq => by
    have hstep : ∀ e ∈ (minTransfersRelax g current (best, q) n).2, TQinv g s e := by
      unfold minTransfersRelax
      cases hga : g.getEdgeAttributes current.node n with
      | none => simpa using hq
      | some edge =>
        dsimp only
        split
        · intro e he
          rw [List.mem_append] at he
          rcases he with he | he
          · exact hq e he
          · rw [List.mem_singleton] at he
            subst he
            refine ⟨?_, ?_, List.getLast?_concat _⟩
            · exact chainEdges_append g current.path current.node n hc.1 hc.2.2
                (getEdgeAttributes_hasEdge hga)
            · rw [head?_append_single n current.path (chainEdges_ne_nil hc.1)]
              exact hc.2.1
        · exact hq
    have hrec := minTransfersRelax_inv g s current hc ns
      (minTransfersRelax g current (best, q) n).1
      (minTransfersRelax g current (best, q) n).2 hstep
    simpa using hrec

lemma minTransfersLoop_unreachable (g : Graph) (s t : String)
    (ht : g.hasNode t = true) (hr : ¬ Reachable g s t) :
    ∀ (fuel : ℕ) (queue : List TQEntry) (visited : List String)
      (best : List (String × ℕ × ℚ)),
      (∀ e ∈ queue, TQinv g s e) →
      minTransfersLoop g t fuel queue visited best = none
  | 0, _, _, _, _ => rfl
  | fuel + 1, queue, visited, best, hq => by
    unfold minTransfersLoop
    cases hsort : jsSortWith minTransfersCmp queue with
    | nil => rfl
    | cons current rest =>
      have hmem : ∀ e ∈ current :: rest, TQinv g s e := fun e he =>
        hq e (mem_jsSortWith (hsort ▸ he))
      have hcur : TQinv g s current := hmem current (List.mem_cons_self _ _)
      have hrest : ∀ e ∈ rest, TQinv g s e := fun e he =>
        hmem e (List.mem_cons_of_mem _ he)
      have hne : ¬ current.node = t := by
        intro heq
        refine hr ⟨current.path, ?_, hcur.2.1, heq ▸ hcur.2.2⟩
        exact chain_isWalk g current.path current.node hcur.1 hcur.2.2
          (by rw [heq]; exact ht)
      dsimp only
      rw [if_neg hne]
      split
      · exact minTransfersLoop_unreachable g s t ht hr fuel rest visited best hrest
      · exact minTransfersLoop_unreachable g s t ht hr fuel _ _ _
          (minTransfersRelax_inv g s current hcur (g.neighborsOf current.node)
            best rest hrest)

/-- Invariant of the weighted-search queue. -/
def WQinv (g : Graph) (s : String) (e : WQEntry) : Prop :=
  chainEdges g e.path = true ∧ e.path.head? = some s ∧ e.path.getLast? = some e.node

lemma weightRelax_inv (g : Graph) (s : String) (current : WQEntry)
    (hc : WQinv g s current) :
    ∀ (ns : List String) (best : List (String × ℚ)) (q : List WQEntry),
      (∀ e ∈ q, WQinv g s e) →
      ∀ e ∈ (ns.foldl (weightRelax g current) (best, q)).2, WQinv g s e
  | [], _, _, hq => by simpa using hq
  | n :: ns, best, q, hq => by
    have hstep : ∀ e ∈ (weightRelax g current (best, q) n).2, WQinv g s e := by
      unfold weightRelax
      cases hga : g.getEdgeAttributes current.node n with
      | none => simpa using hq
      | some edge =>
        dsimp only
        split
        · intro e he
          rw [List.mem_append] at he
          rcases he with he | he
          · exact hq e he
          · rw [List.mem_singleton] at he
            subst he
            refine ⟨?_, ?_, List.getLast?_concat _⟩
            · exact chainEdges_append g current.path current.node n hc.1 hc.2.2
                (getEdgeAttributes_hasEdge hga)
            · rw [head?_append_single n current.path (chainEdges_ne_nil hc.1)]
              exact hc.2.1
        · exact hq
    have hrec := weightRelax_inv g s current hc ns
      (weightRelax g current (best, q) n).1
      (weightRelax g current (best, q) n).2 hstep
    simpa using hrec

lemma weightLoop_unreachable (g : Graph) (s t : String)
    (ht : g.hasNode t = true) (hr : ¬ Reachable g s t) :
    ∀ (fuel : ℕ) (queue : List WQEntry) (visited : List String)
      (best : List (String × ℚ)),
      (∀ e ∈ queue, WQinv g s e) →
      weightLoop g t fuel queue visited best = none
  | 0, _, _, _, _ => rfl
  | fuel + 1, queue, visited, best, hq => by
    unfold weightLoop
    cases hsort : jsSortWith (fun a b => a.dist - b.dist) queue with
    | nil => rfl
    | cons current rest =>
      have hmem : ∀ e ∈ current :: rest, WQinv g s e := fun e he =>
        hq e (mem_jsSortWith (hsort ▸ he))
      have hcur : WQinv g s current := hmem current (List.mem_cons_self _ _)
      have hrest : ∀ e ∈ rest, WQinv g s e := fun e he =>
        hmem e (List.mem_cons_of_mem _ he)
      have hne : ¬ current.node = t := by
        intro heq
        refine hr ⟨current.path, ?_, hcur.2.1, heq ▸ hcur.2.2⟩
        exact chain_isWalk g current.path current.node hcur.1 hcur.2.2
          (by rw [heq]; exact ht)
      dsimp only
      rw [if_neg hne]
      split
      · exact weightLoop_unreachable g s t ht hr fuel rest visited best hrest
      · exact weightLoop_unreachable g s t ht hr fuel _ _ _
          (weightRelax_inv g s current hcur (g.neighborsOf current.node)
            best rest hrest)

lemma dijkstraMinTransfers_unreachable (g : Graph) (s t : String)
    (hs : g.hasNode s = true) (ht : g.hasNode t = true) (hst : ¬ s = t)
    (hr : ¬ Reachable g s t) : dijkstraMinTransfers g s t = none := by
  unfold dijkstraMinTransfers
  rw [if_neg (by simp [hs, ht]), if_neg hst]
  exact minTransfersLoop_unreachable g s t ht hr _ _ _ _
    (by
      intro e he
      rw [List.mem_singleton] at he
      subst he
      exact ⟨rfl, rfl, rfl⟩)

lemma bidirectionalDijkstra_unreachable (g : Graph) (s t : String)
    (hs : g.hasNode s = true) (ht : g.hasNode t = true) (hst : ¬ s = t)
    (hr : ¬ Reachable g s t) : bidirectionalDijkstra g s t = none := by
  unfold bidirectionalDijkstra
  rw [if_neg (by simp [hs, ht]), if_neg hst]
  exact weightLoop_unreachable g s t ht hr _ _ _ _
    (by
      intro e he
      rw [List.mem_singleton] at he
      subst he
      exact ⟨rfl, rfl, rfl⟩)

/-- C8 counterexample: with `source == target` but the node absent from
the graph, the missing-endpoint check fires first (line 340) and the
engine returns the unreachable sentinel, not the trivial path the claim
promises for every `source == target` query. -/
theorem c8_source_eq_target_missing_node :
    computeShortestPath emptyGraph "A" "A" Objective.time = unreachableResult ∧
    computeShortestPath emptyGraph "A" "A" Objective.time ≠ trivialResult "A" := by
  constructor
  · rfl
  · intro h
    have hp : (unreachableResult).path = (trivialResult "A").path := by
      conv_lhs => rw [show unreachableResult =
        computeShortestPath emptyGraph "A" "A" Objective.time from rfl]
      rw [h]
    simp [unreachableResult, trivialResult] at hp

/-- C8 (amended): a missing endpoint yields the unreachable sentinel
(this check precedes the `source == target` check); `source == target`
with the node present yields the trivial zero result; and an unreachable
pair yields the sentinel — under every objective, and the function is
total (never throws). -/
theorem c8_computeShortestPath_edge_cases (g : Graph) (s t : String)
    (objective : Objective) :
    ((g.hasNode s = false ∨ g.hasNode t = false) →
      computeShortestPath g s t objective = unreachableResult) ∧
    (g.hasNode s = true → s = t →
      computeShortestPath g s t objective = trivialResult s) ∧
    (¬ Reachable g s t → computeShortestPath g s t objective = unreachableResult) := by
  refine ⟨?_, ?_, ?_⟩
  · intro h
    unfold computeShortestPath
    rw [if_pos]
    rcases h with h | h <;> simp [h]
  · intro hs hst
    subst hst
    unfold computeShortestPath
    rw [if_neg (by simp [hs]), if_pos rfl]
  · intro hr
    by_cases hs : g.hasNode s = true
    · by_cases ht : g.hasNode t = true
      · by_cases hst : s = t
        · exfalso
          subst hst
          exact hr ⟨[s], by simpa [isWalk] using hs, rfl, rfl⟩
        · unfold computeShortestPath
          rw [if_neg (by simp [hs, ht]), if_neg hst]
          cases objective with
          | transfers =>
            rw [show dijkstraMinTransfers g s t = none from
              dijkstraMinTransfers_unreachable g s t hs ht hst hr]
          | time =>
            rw [show bidirectionalDijkstra g s t = none from
              bidirectionalDijkstra_unreachable g s t hs ht hst hr]
          | cost =>
            rw [show bidirectionalDijkstra g s t = none from
              bidirectionalDijkstra_unreachable g s t hs ht hst hr]
      · unfold computeShortestPath
        rw [if_pos (by simp [Bool.not_eq_true] at ht; simp [ht])]
    · unfold computeShortestPath
      rw [if_pos (by simp [Bool.not_eq_true] at hs; simp [hs])]

def c8node (i : String) : NodeRec :=
  { node_id := i, name := none, lat := 0, lon := 0, layer := none, region := none,
    ntype := none }

/-- A two-node graph with no edges. -/
def c8graph : Graph := ⟨[("A", c8node "A"), ("B", c8node "B")], []⟩

/-- Witness for C8 (amended) on a concrete two-node edgeless graph. -/
theorem c8_computeShortestPath_edge_cases_witness :
    computeShortestPath c8graph "A" "A" Objective.time = trivialResult "A" ∧
    computeShortestPath c8graph "Z" "A" Objective.cost = unreachableResult ∧
    computeShortestPath c8graph "A" "B" Objective.transfers = unreachableResult := by
  have h1 := c8_computeShortestPath_edge_cases c8graph "A" "A" Objective.time
  have h2 := c8_computeShortestPath_edge_cases c8graph "Z" "A" Objective.cost
  have h3 := c8_computeShortestPath_edge_cases c8graph "A" "B" Objective.transfers
  refine ⟨h1.2.1 (by decide) rfl, h2.1 (Or.inl (by decide)), h3.2.2 ?_⟩
  rintro ⟨p, hw, hh, hl⟩
  cases p with
  | nil => exact Option.noConfusion hh
  | cons x rest =>
    cases rest with
    | nil =>
      have hx : x = "A" := by simpa using hh
      have hx2 : x = "B" := by simpa using hl
      rw [hx] at hx2
      exact absurd hx2 (by decide)
    | cons y rest2 =>
      rw [isWalk, Bool.and_eq_true] at hw
      have : c8graph.hasEdge x y = false := by
        show List.any [] _ = false
        rfl
      rw [this] at hw
      exact Bool.noConfusion hw.1

/-! ### C1 -/

def c1node (i : String) : NodeRec :=
  { node_id := i, name := none, lat := 0, lon := 0, layer := none, region := none,
    ntype := none }

def c1edge (f t m : String) (tm : ℚ) : EdgeRec :=
  { from_id := f, to_id := t, mode := some m, edge_type := none,
    intra_or_inter := some "intra", distance_km := 1, time_min := tm, cost_rs := some 5 }

/-- A five-node network: a fast metro detour S—A—V (1 min per leg), a
slow single-mode bus route S—B—V (10 min per leg), and a final bus leg
V—T. The all-bus route S—B—V—T has 0 transfers; going via the metro
requires a transfer at V. -/
def c1graph : Graph := buildGraph
  [c1node "S", c1node "A", c1node "B", c1node "V", c1node "T"]
  [c1edge "S" "A" "metro" 1, c1edge "A" "V" "metro" 1,
   c1edge "S" "B" "bus" 10, c1edge "B" "V" "bus" 10,
   c1edge "V" "T" "bus" 1]
  Objective.transfers none none

set_option maxRecDepth 10000 in
/-- C1 evaluated at the failing input: the `transfers` search returns the
path S—A—V—T with 1 transfer, while the existing walk S—B—V—T from the
same endpoints has 0 transfers (and is therefore lexicographically better
regardless of its larger total time). The `best` map of
`dijkstraMinTransfers` is keyed by node alone (line 93), so the slower
0-transfer approach to V is pruned by the faster metro approach. -/
theorem c1_minTransfers_suboptimal :
    (computeShortestPath c1graph "S" "T" Objective.transfers).path =
      some ["S", "A", "V", "T"] ∧
    (computeShortestPath c1graph "S" "T" Objective.transfers).transfers = some 1 ∧
    isWalk c1graph ["S", "B", "V", "T"] = true ∧
    (["S", "B", "V", "T"] : List String).head? = some "S" ∧
    (["S", "B", "V", "T"] : List String).getLast? = some "T" ∧
    walkTransfers c1graph ["S", "B", "V", "T"] = some 0 :=
  of_decide_eq_true (by with_unfolding_all rfl)

/-! ### C7 -/

/-- A reachable scenario result with the given post-failure time and a
3-node path. -/
def c7res (t : ℚ) : ODResult :=
  { source := "s", target := "t", sourceName := "s", targetName := "t",
    result := { path := some ["s", "m", "t"], pathSegments := [],
                distance := some 1, transfers := some 0, time := some t,
                cost := some 1 },
    reachable := true }

/-- Six reachable results; the last has the strictly largest time. -/
def c7results : List ODResult :=
  [c7res 60, c7res 61, c7res 62, c7res 63, c7res 64, c7res 100]

/-- C7 evaluated at the failing input: the comparator at line 661 is
`(b.time - a.time) - (a.time - 0)`, i.e. `b.time - 2*a.time`; on this
input every comparator call returns a negative number (e.g.
`100 - 2*60 < 0`), so the sort leaves the order unchanged and the first
five results are taken — excluding the unique largest-time result
(time 100), which the claim says must be among the selected five. -/
theorem c7_odDrivenTop_excludes_largest :
    (odDrivenTop c7results).map (fun r => r.result.time) =
      [some 60, some 61, some 62, some 63, some 64] ∧
    (c7results.filter (fun r => r.reachable)).map (fun r => r.result.time) =
      [some 60, some 61, some 62, some 63, some 64, some 100] ∧
    (c7results.all (fun r => decide (r.result.time.getD 0 ≤ 100))) = true ∧
    ((odDrivenTop c7results).all (fun r => !(r.result.time == some 100))) = true :=
  of_decide_eq_true (by with_unfolding_all rfl)

/-! ### C6 -/

/-- Two candidates propose the same unordered node pair. -/
def samePair (a b : Candidate) : Prop :=
  (a.fromId = b.fromId ∧ a.toId = b.toId) ∨ (a.fromId = b.toId ∧ a.toId = b.fromId)

lemma samePair_symm : Symmetric (fun a b => ¬ samePair a b) := by
  intro a b h hs
  apply h
  rcases hs with ⟨h1, h2⟩ | ⟨h1, h2⟩
  · exact Or.inl ⟨h1.symm, h2.symm⟩
  · exact Or.inr ⟨h2.symm, h1.symm⟩

/-- Invariant of the candidate-generation state: every candidate's key is
registered in the dedup set, later candidates collide with no earlier
key (in either orientation), and no candidate joins an already-connected
pair. -/
def CandInv (og fg : Graph) (st : CandState) : Prop :=
  (∀ c ∈ st.1, candKey c.fromId c.toId ∈ st.2) ∧
  st.1.Pairwise (fun a b => candKey b.fromId b.toId ≠ candKey a.fromId a.toId ∧
    candKey b.toId b.fromId ≠ candKey a.fromId a.toId) ∧
  (∀ c ∈ st.1, og.hasEdge c.fromId c.toId = false ∧
    fg.hasEdge c.fromId c.toId = false)

lemma keyrel_not_samePair {a b : Candidate}
    (h1 : candKey b.fromId b.toId ≠ candKey a.fromId a.toId)
    (h2 : candKey b.toId b.fromId ≠ candKey a.fromId a.toId) : ¬ samePair a b := by
  rintro (⟨hf, ht⟩ | ⟨hf, ht⟩)
  · exact h1 (by rw [candKey, candKey, ← hf, ← ht])
  · exact h2 (by rw [candKey, candKey, ← hf, ← ht])

lemma addCandidate_inv (nodes : List NodeRec) (og fg : Graph)
    (dist : ℚ → ℚ → ℚ → ℚ → ℚ) (st : CandState) (f t ctype : String) (priority : ℚ)
    (h : CandInv og fg st) :
    CandInv og fg (addCandidate nodes og fg dist st f t ctype priority) := by
  unfold addCandidate
  by_cases hdup : (st.2.contains (candKey f t) || st.2.contains (candKey t f)) = true
  · rw [if_pos hdup]; exact h
  · rw [if_neg hdup]
    by_cases hconn : (fg.hasEdge f t || og.hasEdge f t) = true
    · rw [if_pos hconn]; exact h
    · rw [if_neg hconn]
      rw [Bool.or_eq_true, not_or] at hdup hconn
      cases h1 : nodes.find? (fun n => n.node_id == f) with
      | none => exact h
      | some fromNode =>
        cases h2 : nodes.find? (fun n => n.node_id == t) with
        | none => exact h
        | some toNode =>
          dsimp only
          refine ⟨?_, ?_, ?_⟩
          · intro c hc
            rw [List.mem_append] at hc
            rcases hc with hc | hc
            · exact List.mem_append_left _ (h.1 c hc)
            · rw [List.mem_singleton] at hc
              subst hc
              exact List.mem_append_right _ (List.mem_singleton_self _)
          · rw [List.pairwise_append]
            refine ⟨h.2.1, List.pairwise_singleton _ _, ?_⟩
            intro a ha c hc
            rw [List.mem_singleton] at hc
            subst hc
            have hka : candKey a.fromId a.toId ∈ st.2 := h.1 a ha
            constructor
            · intro heq
              apply hdup.1
              rw [show candKey f t = candKey a.fromId a.toId from heq]
              exact List.elem_eq_true_of_mem hka
            · intro heq
              apply hdup.2
              rw [show candKey t f = candKey a.fromId a.toId from heq]
              exact List.elem_eq_true_of_mem hka
          · intro c hc
            rw [List.mem_append] at hc
            rcases hc with hc | hc
            · exact h.2.2 c hc
            · rw [List.mem_singleton] at hc
              subst hc
              exact ⟨Bool.eq_false_iff.mpr hconn.2, Bool.eq_false_iff.mpr hconn.1⟩

lemma foldl_preserves {σ β : Type} (P : σ → Prop) (step : σ → β → σ)
    (hstep : ∀ st b, P st → P (step st b)) :
    ∀ (l : List β) (st : σ), P st → P (l.foldl step st)
  | [], _, h => h
  | b :: l, st, h => foldl_preserves P step hstep l (step st b) (hstep st b h)

lemma hubNeighborLoop_inv (nodes : List NodeRec) (og fg : Graph)
    (dist : ℚ → ℚ → ℚ → ℚ → ℚ) :
    ∀ (hubs : List NodeRec) (st : CandState), CandInv og fg st →
      CandInv og fg (hubNeighborLoop nodes og fg dist hubs st)
  | [], _, h => h
  | hub :: rest, st, h => by
    unfold hubNeighborLoop
    apply hubNeighborLoop_inv nodes og fg dist rest
    apply foldl_preserves (CandInv og fg) _ ?_ rest st h
    intro st2 h2 hP
    dsimp only
    split
    · exact addCandidate_inv nodes og fg dist st2 _ _ _ _ hP
    · exact hP

lemma crossRailLoop_inv (nodes : List NodeRec) (og fg : Graph)
    (dist : ℚ → ℚ → ℚ → ℚ → ℚ) (metroStations mmtsStations : List NodeRec)
    (st : CandState) (h : CandInv og fg st) :
    CandInv og fg (crossRailLoop nodes og fg dist metroStations mmtsStations st) := by
  unfold crossRailLoop
  apply foldl_preserves (CandInv og fg) _ ?_ metroStations st h
  intro st1 metro hP
  apply foldl_preserves (CandInv og fg) _ ?_ mmtsStations st1 hP
  intro st2 mmts hP2
  dsimp only
  split
  · exact addCandidate_inv nodes og fg dist st2 _ _ _ _ hP2
  · exact hP2

lemma odDrivenLoop_inv (nodes : List NodeRec) (og fg : Graph)
    (dist : ℚ → ℚ → ℚ → ℚ → ℚ) (topAffected : List ODResult)
    (st : CandState) (h : CandInv og fg st) :
    CandInv og fg (odDrivenLoop nodes og fg dist topAffected st) := by
  unfold odDrivenLoop
  apply foldl_preserves (CandInv og fg) _ ?_ topAffected st h
  intro st1 od hP
  dsimp only
  repeat' split
  all_goals first
    | exact addCandidate_inv nodes og fg dist st1 _ _ _ _ hP
    | exact hP

lemma expressHubInner_inv (nodes : List NodeRec) (og fg : Graph)
    (dist : ℚ → ℚ → ℚ → ℚ → ℚ) (h2 : NodeRec) :
    ∀ (rest : List NodeRec) (st : CandState), CandInv og fg st →
      CandInv og fg (expressHubInner nodes og fg dist h2 rest st)
  | [], _, h => h
  | h3 :: rest, st, h => by
    unfold expressHubInner
    split
    · apply expressHubInner_inv nodes og fg dist h2 rest
      split
      · split
        · exact addCandidate_inv nodes og fg dist st _ _ _ _ h
        · exact h
      · exact h
    · exact h

lemma expressHubOuter_inv (nodes : List NodeRec) (og fg : Graph)
    (dist : ℚ → ℚ → ℚ → ℚ → ℚ) :
    ∀ (hubs : List NodeRec) (st : CandState), CandInv og fg st →
      CandInv og fg (expressHubOuter nodes og fg dist hubs st)
  | [], _, h => h
  | hub :: rest, st, h => by
    unfold expressHubOuter
    split
    · exact expressHubOuter_inv nodes og fg dist rest _
        (expressHubInner_inv nodes og fg dist hub rest st h)
    · exact h

lemma jsInsert_priority_pairwise (x : Candidate) :
    ∀ (l : List Candidate), l.Pairwise (fun a b => b.priority ≤ a.priority) →
      (jsInsert priorityCmp x l).Pairwise (fun a b => b.priority ≤ a.priority)
  | [], _ => List.pairwise_singleton _ _
  | y :: ys, h => by
    rw [List.pairwise_cons] at h
    unfold jsInsert
    split
    · rename_i hc
      have hxy : x.priority ≤ y.priority := by
        have hle : x.priority - y.priority ≤ 0 := hc
        linarith
      rw [List.pairwise_cons]
      constructor
      · intro z hz
        have hz' : z ∈ x :: ys := (jsInsert_perm priorityCmp x ys).mem_iff.mp hz
        rcases List.mem_cons.mp hz' with rfl | hz2
        · exact hxy
        · exact h.1 z hz2
      · exact jsInsert_priority_pairwise x ys h.2
    · rename_i hc
      have hyx : y.priority ≤ x.priority := by
        have hlt : ¬ (x.priority - y.priority ≤ 0) := hc
        linarith
      rw [List.pairwise_cons]
      constructor
      · intro z hz
        rcases List.mem_cons.mp hz with rfl | hz2
        · exact hyx
        · exact le_trans (h.1 z hz2) hyx
      · exact List.pairwise_cons.mpr h
  termination_by l => l.length

lemma jsSortAux_priority_pairwise :
    ∀ (l acc : List Candidate),
      acc.Pairwise (fun a b => b.priority ≤ a.priority) →
      (jsSortAux priorityCmp acc l).Pairwise (fun a b => b.priority ≤ a.priority)
  | [], _, h => h
  | x :: xs, acc, h =>
    jsSortAux_priority_pairwise xs _ (jsInsert_priority_pairwise x acc h)

lemma jsSortWith_priority_pairwise (l : List Candidate) :
    (jsSortWith priorityCmp l).Pairwise (fun a b => b.priority ≤ a.priority) :=
  jsSortAux_priority_pairwise l [] List.Pairwise.nil

/-- C6: the candidate list has at most 30 entries, no two candidates
propose the same unordered node pair, no candidate joins a pair already
connected in the original or the failed graph, and the list is sorted by
descending priority — for every distance function, node list, graph pair
and scenario result list. -/
theorem c6_generateCandidates_invariants (dist : ℚ → ℚ → ℚ → ℚ → ℚ)
    (nodes : List NodeRec) (og fg : Graph) (scenarioResults : List ODResult) :
    (generateCandidates dist nodes og fg scenarioResults).length ≤ 30 ∧
    (generateCandidates dist nodes og fg scenarioResults).Pairwise
      (fun a b => ¬ samePair a b) ∧
    (∀ c ∈ generateCandidates dist nodes og fg scenarioResults,
      og.hasEdge c.fromId c.toId = false ∧ fg.hasEdge c.fromId c.toId = false) ∧
    (generateCandidates dist nodes og fg scenarioResults).Pairwise
      (fun a b => b.priority ≤ a.priority) := by
  have hinv0 : CandInv og fg ([], []) :=
    ⟨fun c hc => absurd hc (List.not_mem_nil c), List.Pairwise.nil,
     fun c hc => absurd hc (List.not_mem_nil c)⟩
  have hinv : CandInv og fg (expressHubOuter nodes og fg dist (nodes.filter majorHubFilter)
      (odDrivenLoop nodes og fg dist (odDrivenTop scenarioResults)
        (crossRailLoop nodes og fg dist (nodes.filter (fun n => n.layer == some "metro"))
          (nodes.filter (fun n => n.layer == some "mmts"))
          (hubNeighborLoop nodes og fg dist
            (nodes.filter (fun n => n.ntype == some "hub" && n.layer == some "bus"))
            ([], []))))) :=
    expressHubOuter_inv nodes og fg dist _ _
      (odDrivenLoop_inv nodes og fg dist _ _
        (crossRailLoop_inv nodes og fg dist _ _ _
          (hubNeighborLoop_inv nodes og fg dist _ _ hinv0)))
  have hgen : generateCandidates dist nodes og fg scenarioResults =
      (jsSortWith priorityCmp (expressHubOuter nodes og fg dist
        (nodes.filter majorHubFilter)
        (odDrivenLoop nodes og fg dist (odDrivenTop scenarioResults)
          (crossRailLoop nodes og fg dist
            (nodes.filter (fun n => n.layer == some "metro"))
            (nodes.filter (fun n => n.layer == some "mmts"))
            (hubNeighborLoop nodes og fg dist
              (nodes.filter (fun n => n.ntype == some "hub" && n.layer == some "bus"))
              ([], []))))).1).take 30 := rfl
  rw [hgen]
  set st4 := expressHubOuter nodes og fg dist (nodes.filter majorHubFilter)
    (odDrivenLoop nodes og fg dist (odDrivenTop scenarioResults)
      (crossRailLoop nodes og fg dist (nodes.filter (fun n => n.layer == some "metro"))
        (nodes.filter (fun n => n.layer == some "mmts"))
        (hubNeighborLoop nodes og fg dist
          (nodes.filter (fun n => n.ntype == some "hub" && n.layer == some "bus"))
          ([], [])))) with hst4
  refine ⟨List.length_take_le _ _, ?_, ?_, ?_⟩
  · have hpw : st4.1.Pairwise (fun a b => ¬ samePair a b) :=
      hinv.2.1.imp (fun hk => keyrel_not_samePair hk.1 hk.2)
    have hsorted : (jsSortWith priorityCmp st4.1).Pairwise (fun a b => ¬ samePair a b) :=
      ((jsSortWith_perm priorityCmp st4.1).pairwise_iff
        (fun h12 => samePair_symm h12)).mpr hpw
    exact hsorted.sublist (List.take_sublist _ _)
  · intro c hc
    have hc1 : c ∈ jsSortWith priorityCmp st4.1 := List.take_subset _ _ hc
    have hc2 : c ∈ st4.1 := (jsSortWith_perm priorityCmp st4.1).mem_iff.mp hc1
    exact hinv.2.2 c hc2
  · exact (jsSortWith_priority_pairwise st4.1).sublist (List.take_sublist _ _)

def c6hub (i : String) : NodeRec :=
  { node_id := i, name := none, lat := 0, lon := 0, layer := some "bus",
    region := none, ntype := some "hub" }

/-- The hub-neighbor candidate the C6 witness scenario generates. -/
def c6cand : Candidate :=
  { fromId := "C", toId := "D", fromName := none, toName := none,
    ctype := "hub_neighbor", distance := 3, priority := 10 }

/-- Witness for C6: two bus hubs 3 km apart (constant distance function)
generate the single hub-neighbor candidate C—D, and the theorem's
conjuncts apply to it. -/
theorem c6_generateCandidates_invariants_witness :
    emptyGraph.hasEdge "C" "D" = false ∧
    (generateCandidates (fun _ _ _ _ => 3) [c6hub "C", c6hub "D"] emptyGraph emptyGraph
      []).length ≤ 30 := by
  have h := c6_generateCandidates_invariants (fun _ _ _ _ => 3) [c6hub "C", c6hub "D"]
    emptyGraph emptyGraph []
  have hmem : c6cand ∈ generateCandidates (fun _ _ _ _ => 3) [c6hub "C", c6hub "D"]
      emptyGraph emptyGraph [] :=
    of_decide_eq_true (by with_unfolding_all rfl)
  exact ⟨(h.2.2.1 _ hmem).1, h.1⟩

/-! ### C4 -/

lemma greedyLoop_length (odPairs : List ODPair) (objective : Objective)
    (coefficients : Coefficients) (baselineValue : ℚ) :
    ∀ (n : ℕ) (wg : Graph) (remaining : List Candidate) (sel : List SelectedLink),
      ((greedyLoop odPairs objective coefficients baselineValue n wg remaining sel).1).length
        ≤ sel.length + n
  | 0, _, _, sel => Nat.le_add_right sel.length 0
  | n + 1, wg, remaining, sel => by
    unfold greedyLoop
    by_cases hrem : remaining.length = 0
    · rw [if_pos hrem]
      exact Nat.le_add_right sel.length (n + 1)
    · rw [if_neg hrem]
      cases hbest : (evalRound odPairs objective coefficients baselineValue wg
          remaining).2 with
      | none => exact Nat.le_add_right sel.length (n + 1)
      | some best =>
        dsimp only
        by_cases himp : (evalRound odPairs objective coefficients baselineValue wg
            remaining).1 ≤ 0
        · rw [if_pos himp]
          exact Nat.le_add_right sel.length (n + 1)
        · rw [if_neg himp]
          cases hadd : wg.addEdge? best.1.fromId best.1.toId
              (candidateEdgeAttrs objective best.2.1 best.2.2.1 best.1.distance
                best.2.2.2.1) with
          | some wg' =>
            dsimp only
            have ih := greedyLoop_length odPairs objective coefficients baselineValue n
              wg' (remaining.filter (fun c =>
                !(c.fromId == best.1.fromId && c.toId == best.1.toId)))
              (sel ++ [{ cand := best.1, time := best.2.1, cost := best.2.2.1,
                         transportMode := best.2.2.2.1,
                         improvement := (evalRound odPairs objective coefficients
                           baselineValue wg remaining).1,
                         metrics := best.2.2.2.2 }])
            refine le_trans ih ?_
            rw [List.length_append, List.length_singleton]
            omega
          | none =>
            dsimp only
            have ih := greedyLoop_length odPairs objective coefficients baselineValue n
              wg remaining sel
            omega

lemma evalRound_fold_no_improvement (odPairs : List ODPair) (objective : Objective)
    (coefficients : Coefficients) (baselineValue : ℚ) (wg : Graph) :
    ∀ (l : List Candidate),
      (∀ c ∈ l, ∀ out, candidateEvalOne odPairs objective coefficients baselineValue
        wg c = some out → out.2.2.2.1 ≤ 0) →
      (l.foldl (fun st candidate =>
        match candidateEvalOne odPairs objective coefficients baselineValue
            wg candidate with
        | none => st
        | some (t, c, tm, improvement, testMetrics) =>
          if improvement > st.1 then (improvement, some (candidate, t, c, tm, testMetrics))
          else st) ((0 : ℚ), (none : Option (Candidate × ℚ × ℚ × String × MetricsBundle))))
        = (0, none)
  | [], _ => rfl
  | c :: l, h => by
    rw [List.foldl_cons]
    have hstep : (match candidateEvalOne odPairs objective coefficients baselineValue
          wg c with
        | none => ((0 : ℚ), (none : Option (Candidate × ℚ × ℚ × String × MetricsBundle)))
        | some (t, c2, tm, improvement, testMetrics) =>
          if improvement > (0 : ℚ) then (improvement, some (c, t, c2, tm, testMetrics))
          else (0, none)) = (0, none) := by
      cases he : candidateEvalOne odPairs objective coefficients baselineValue wg c with
      | none => rfl
      | some out =>
        obtain ⟨t, c2, tm, imp, m⟩ := out
        have himp : imp ≤ 0 := h c (List.mem_cons_self _ _) (t, c2, tm, imp, m) he
        dsimp only
        rw [if_neg (not_lt.mpr himp)]
    rw [hstep]
    exact evalRound_fold_no_improvement odPairs objective coefficients baselineValue wg l
      (fun c' hc' => h c' (List.mem_cons_of_mem _ hc'))

lemma evalRound_no_improvement (odPairs : List ODPair) (objective : Objective)
    (coefficients : Coefficients) (baselineValue : ℚ) (wg : Graph)
    (remaining : List Candidate)
    (h : ∀ c ∈ remaining, ∀ out, candidateEvalOne odPairs objective coefficients
      baselineValue wg c = some out → out.2.2.2.1 ≤ 0) :
    evalRound odPairs objective coefficients baselineValue wg remaining = (0, none) :=
  evalRound_fold_no_improvement odPairs objective coefficients baselineValue wg
    remaining h

lemma evalRound_fold_mem (odPairs : List ODPair) (objective : Objective)
    (coefficients : Coefficients) (baselineValue : ℚ) (wg : Graph) :
    ∀ (l : List Candidate) (st : ℚ × Option (Candidate × ℚ × ℚ × String × MetricsBundle))
      (best : Candidate × ℚ × ℚ × String × MetricsBundle),
      (l.foldl (fun st candidate =>
        match candidateEvalOne odPairs objective coefficients baselineValue
            wg candidate with
        | none => st
        | some (t, c, tm, improvement, testMetrics) =>
          if improvement > st.1 then (improvement, some (candidate, t, c, tm, testMetrics))
          else st) st).2 = some best →
      st.2 = some best ∨ best.1 ∈ l
  | [], _, _, h => Or.inl h
  | c :: l, st, best, h => by
    rw [List.foldl_cons] at h
    rcases evalRound_fold_mem odPairs objective coefficients baselineValue wg l _ best h
      with hst | hmem
    · cases he : candidateEvalOne odPairs objective coefficients baselineValue wg c with
      | none =>
        rw [he] at hst
        exact Or.inl hst
      | some out =>
        obtain ⟨t, c2, tm, imp, m⟩ := out
        rw [he] at hst
        dsimp only at hst
        by_cases hgt : imp > st.1
        · rw [if_pos hgt] at hst
          have : best = (c, t, c2, tm, m) := by
            have := hst
            simpa using this.symm
          right
          rw [this]
          exact List.mem_cons_self _ _
        · rw [if_neg hgt] at hst
          exact Or.inl hst
    · exact Or.inr (List.mem_cons_of_mem _ hmem)

lemma evalRound_mem (odPairs : List ODPair) (objective : Objective)
    (coefficients : Coefficients) (baselineValue : ℚ) (wg : Graph)
    (remaining : List Candidate)
    (best : Candidate × ℚ × ℚ × String × MetricsBundle)
    (h : (evalRound odPairs objective coefficients baselineValue wg remaining).2 =
      some best) : best.1 ∈ remaining := by
  rcases evalRound_fold_mem odPairs objective coefficients baselineValue wg remaining
    (0, none) best h with hst | hmem
  · exact Option.noConfusion hst
  · exact hmem

/-- Selected links never repeat a (from, to) ordered pair: each committed
candidate is filtered out of the remaining pool. -/
def selDistinct (sel : List SelectedLink) : Prop :=
  sel.Pairwise (fun a b =>
    ¬(b.cand.fromId = a.cand.fromId ∧ b.cand.toId = a.cand.toId))

lemma greedyLoop_distinct (odPairs : List ODPair) (objective : Objective)
    (coefficients : Coefficients) (baselineValue : ℚ) :
    ∀ (n : ℕ) (wg : Graph) (remaining : List Candidate) (sel : List SelectedLink),
      selDistinct sel →
      (∀ s ∈ sel, ∀ c ∈ remaining,
        ¬(c.fromId = s.cand.fromId ∧ c.toId = s.cand.toId)) →
      selDistinct
        (greedyLoop odPairs objective coefficients baselineValue n wg remaining sel).1
  | 0, _, _, _, hsel, _ => hsel
  | n + 1, wg, remaining, sel, hsel, hfresh => by
    unfold greedyLoop
    by_cases hrem : remaining.length = 0
    · rw [if_pos hrem]
      exact hsel
    · rw [if_neg hrem]
      cases hbest : (evalRound odPairs objective coefficients baselineValue wg
          remaining).2 with
      | none => exact hsel
      | some best =>
        dsimp only
        by_cases himp : (evalRound odPairs objective coefficients baselineValue wg
            remaining).1 ≤ 0
        · rw [if_pos himp]
          exact hsel
        · rw [if_neg himp]
          cases hadd : wg.addEdge? best.1.fromId best.1.toId
              (candidateEdgeAttrs objective best.2.1 best.2.2.1 best.1.distance
                best.2.2.2.1) with
          | some wg' =>
            dsimp only
            apply greedyLoop_distinct odPairs objective coefficients baselineValue n
            · unfold selDistinct
              rw [List.pairwise_append]
              refine ⟨hsel, List.pairwise_singleton _ _, ?_⟩
              intro s hs b hb
              rw [List.mem_singleton] at hb
              subst hb
              dsimp only
              exact hfresh s hs best.1
                (evalRound_mem odPairs objective coefficients baselineValue wg
                  remaining best hbest)
            · intro s hs c hc
              rw [List.mem_append] at hs
              have hcrem : c ∈ remaining.filter (fun c =>
                  !(c.fromId == best.1.fromId && c.toId == best.1.toId)) := hc
              rw [List.mem_filter] at hcrem
              rcases hs with hs | hs
              · exact hfresh s hs c hcrem.1
              · rw [List.mem_singleton] at hs
                subst hs
                dsimp only
                have hpred := hcrem.2
                simp only [Bool.not_eq_true', Bool.and_eq_false_iff,
                  beq_eq_false_iff_ne] at hpred
                rintro ⟨h1, h2⟩
                rcases hpred with hp | hp
                · exact hp h1
                · exact hp h2
          | none =>
            dsimp only
            exact greedyLoop_distinct odPairs objective coefficients baselineValue n
              wg remaining sel hsel hfresh

set_option maxHeartbeats 800000 in
/-- C4: the recommender returns at most `budget` recommendations; any
round in which no remaining candidate's insertion strictly improves on
the reference value returns its selections unchanged (terminating the
whole process early); and every committed candidate is removed from the
remaining pool, so no (from, to) pair is ever selected twice. -/
theorem c4_greedyRecommendation_budget (failedGraph : Graph)
    (candidates : List Candidate) (odPairs : List ODPair) (budget : ℕ)
    (objective : Objective) (coeffs : Option Coefficients) :
    (greedyRecommendation failedGraph candidates odPairs budget objective
      coeffs).selectedLinks.length ≤ budget ∧
    (∀ (bval : ℚ) (n : ℕ) (wg : Graph) (remaining : List Candidate)
      (sel : List SelectedLink),
      (∀ c ∈ remaining, ∀ out, candidateEvalOne odPairs objective
        (coeffs.getD defaultCoefficients) bval wg c = some out → out.2.2.2.1 ≤ 0) →
      greedyLoop odPairs objective (coeffs.getD defaultCoefficients) bval (n + 1) wg
        remaining sel = (sel, wg)) ∧
    selDistinct (greedyRecommendation failedGraph candidates odPairs budget objective
      coeffs).selectedLinks := by
  refine ⟨?_, ?_, ?_⟩
  · have h := greedyLoop_length odPairs objective (coeffs.getD defaultCoefficients)
      (objValue objective (computeMetrics failedGraph odPairs objective)) budget
      failedGraph candidates []
    simpa using h
  · intro bval n wg remaining sel h
    show (if remaining.length = 0 then (sel, wg) else _) = (sel, wg)
    by_cases hrem : remaining.length = 0
    · rw [if_pos hrem]
    · rw [if_neg hrem]
      rw [show evalRound odPairs objective (coeffs.getD defaultCoefficients) bval wg
        remaining = (0, none) from evalRound_no_improvement odPairs objective
          (coeffs.getD defaultCoefficients) bval wg remaining h]
  · exact greedyLoop_distinct odPairs objective (coeffs.getD defaultCoefficients)
      (objValue objective (computeMetrics failedGraph odPairs objective)) budget
      failedGraph candidates [] List.Pairwise.nil
      (fun s hs => absurd hs (List.not_mem_nil s))

/-- Witness for C4 at a concrete empty run: no candidates, budget 3. -/
theorem c4_greedyRecommendation_budget_witness :
    (greedyRecommendation emptyGraph [] [] 3 Objective.time
      none).selectedLinks.length ≤ 3 ∧
    greedyLoop [] Objective.time defaultCoefficients 0 1 emptyGraph [] [] =
      ([], emptyGraph) := by
  have h := c4_greedyRecommendation_budget emptyGraph [] [] 3 Objective.time none
  exact ⟨h.1, h.2.1 0 0 emptyGraph [] []
    (fun c hc => absurd hc (List.not_mem_nil c))⟩

end TransportNet
